import Mathlib

/-!
Shallow embedding of the snapshot harvesting and reconciliation engine of the
generalstrikeusstats repository (scrape_strike_data_all.py, scrape_strike_data.py,
scrape_live_site.py), together with proofs of the specification claims.

Python strings are modelled as `List Char`; Python `dict` as an association list
with overwrite-in-place insertion; network effects (the Wayback fetches and the
Google Sheets API call) are modelled by passing the fetched payloads as explicit
arguments, so that every function of the scripts becomes a pure Lean function.
-/

namespace StrikeData

/-- A Python string, as its list of characters. -/
abbrev Str := List Char

/-- Coerce a Lean string literal to the embedding's string type. -/
def str (x : String) : Str := x.data

/-- Python string comparison `a < b` (lexicographic by code point). -/
def strLtB : Str → Str → Bool
  | [], [] => false
  | [], _ :: _ => true
  | _ :: _, [] => false
  | a :: as, b :: bs =>
    if a.toNat < b.toNat then true
    else if b.toNat < a.toNat then false
    else strLtB as bs

/-- Python string comparison `a <= b`. -/
def strLeB (a b : Str) : Bool := !(strLtB b a)

/-- Python `s.replace(',', '')`. -/
def removeCommas (s : Str) : Str := s.filter (fun c => c ≠ ',')

/-- Python `s.strip()`. -/
def pyStrip (s : Str) : Str :=
  ((s.dropWhile Char.isWhitespace).reverse.dropWhile Char.isWhitespace).reverse

/-- Python `s.isdigit()` (the readings here are ASCII, so ASCII digits). -/
def pyIsdigit (s : Str) : Bool := !s.isEmpty && s.all Char.isDigit

/-- Python `int(s)` on an all-digit string. -/
def strToNat (s : Str) : Nat := s.foldl (fun n c => 10 * n + (c.toNat - 48)) 0

/-- Python `str(n)` for a natural number. -/
def natToStr (n : Nat) : Str := Nat.toDigits 10 n

/-- Python `str(i)` for a (possibly negative) integer. -/
def intToStr (i : Int) : Str :=
  if i < 0 then '-' :: natToStr i.natAbs else natToStr i.toNat

/-- The `YYYY-MM-DD` date regenerated from the first 8 characters of a
timestamp, as in `scrape_snapshot` / `load_existing_data`:
`date_str = timestamp[:8]; f"{date_str[:4]}-{date_str[4:6]}-{date_str[6:8]}"`. -/
def formatDate (ts : Str) : Str :=
  let d := ts.take 8
  d.take 4 ++ ['-'] ++ (d.drop 4).take 2 ++ ['-'] ++ (d.drop 6).take 2

/-- The wayback URL `f"https://web.archive.org/web/{timestamp}/{url}"`. -/
def waybackUrl (timestamp url : Str) : Str :=
  str "https://web.archive.org/web/" ++ timestamp ++ ['/'] ++ url

/-- One harvested observation / one CSV data row
(fields `date, timestamp, committed, needed, url`). -/
structure MetricRecord where
  date : Str
  timestamp : Str
  committed : Str
  needed : Str
  url : Str
deriving DecidableEq, Repr

/-- The reconciliation store: Python `dict` keyed by canonical date,
as an association list. -/
abbrev Dict := List (Str × MetricRecord)

/-- Python `d[k] = v`: overwrite the entry in place if the key exists,
otherwise append. -/
def dictInsert (m : Dict) (k : Str) (v : MetricRecord) : Dict :=
  if m.any (fun p => decide (p.1 = k)) then
    m.map (fun p => if p.1 = k then (k, v) else p)
  else m ++ [(k, v)]

/-- Python `d.get(k)` / `k in d`: the first entry with the given key. -/
def dictFind (m : Dict) (k : Str) : Option MetricRecord :=
  (m.find? (fun p => decide (p.1 = k))).map (·.2)

/-- `is_valid_data` of scrape_strike_data_all.py: numeric after removing
commas and stripping, and no placeholder marker in either original string. -/
def is_valid_data (committed needed : Str) : Bool :=
  if committed.isEmpty || needed.isEmpty then false
  else
    let committed_clean := pyStrip (removeCommas committed)
    let needed_clean := pyStrip (removeCommas needed)
    pyIsdigit committed_clean && pyIsdigit needed_clean &&
      !committed.contains '#' && !needed.contains '#'

/-- One step of `load_existing_data` of scrape_strike_data_all.py: a CSV row is
kept iff its timestamp is present with at least 8 characters and its values are
valid; the date key is regenerated from the timestamp. -/
def loadRow (existing : Dict) (row : MetricRecord) : Dict :=
  if row.timestamp.isEmpty then existing
  else if row.timestamp.length < 8 then existing
  else
    let date := formatDate row.timestamp
    if is_valid_data row.committed row.needed then
      dictInsert existing date
        ⟨date, row.timestamp, row.committed, row.needed, row.url⟩
    else existing

/-- `load_existing_data` of scrape_strike_data_all.py, applied to the parsed
rows of the CSV file. -/
def load_existing_data (rows : List MetricRecord) : Dict :=
  rows.foldl loadRow []

/-- `load_existing_data` including the `FileNotFoundError` branch: `none`
models a missing backing file, which yields the empty mapping. -/
def load_existing_file (file : Option (List MetricRecord)) : Dict :=
  match file with
  | none => []
  | some rows => load_existing_data rows

/-- Stable insertion into a `le`-sorted list (the new element goes after
existing equal elements), the building block of the model of Python `sorted`. -/
def insSorted (le : α → α → Bool) (x : α) : List α → List α
  | [] => [x]
  | y :: ys => if le y x then y :: insSorted le x ys else x :: y :: ys

/-- Python `sorted(l, key=...)`: a stable sort by the boolean order `le`. -/
def pySorted (le : α → α → Bool) (l : List α) : List α :=
  l.foldl (fun acc x => insSorted le x acc) []

/-- Gregorian leap year. -/
def isLeap (y : Nat) : Bool := (y % 4 = 0 && y % 100 ≠ 0) || y % 400 = 0

/-- Days in a month of the Gregorian calendar. -/
def daysInMonth (y m : Nat) : Nat :=
  if m = 2 then (if isLeap y then 29 else 28)
  else if m = 4 || m = 6 || m = 9 || m = 11 then 30
  else 31

/-- Days in the months strictly before month `m` of year `y`. -/
def daysBeforeMonth (y m : Nat) : Nat :=
  (List.range (m - 1)).foldl (fun a i => a + daysInMonth y (i + 1)) 0

/-- Ordinal day of the year (1-based). -/
def dayOfYear (y m d : Nat) : Nat := daysBeforeMonth y m + d

/-- Leap days in years `1..y`. -/
def leapsBefore (y : Nat) : Nat := y / 4 - y / 100 + y / 400

/-- Day count of a proleptic-Gregorian date, with 0001-01-01 ↦ 1. -/
def rataDie (y m d : Nat) : Nat := 365 * (y - 1) + leapsBefore (y - 1) + dayOfYear y m d

/-- ISO weekday, Monday = 1 .. Sunday = 7 (0001-01-01 was a Monday). -/
def isoWeekday (y m d : Nat) : Nat := (rataDie y m d - 1) % 7 + 1

/-- Number of ISO weeks in year `y` (52 or 53). -/
def isoWeeksInYear (y : Nat) : Nat :=
  let p := fun (yy : Nat) => (yy + yy / 4 - yy / 100 + yy / 400) % 7
  if p y = 4 || p (y - 1) = 3 then 53 else 52

/-- ISO 8601 week number of a date, as Python's `date.isocalendar()[1]`. -/
def isoWeekNumber (y m d : Nat) : Nat :=
  let w := (10 + dayOfYear y m d - isoWeekday y m d) / 7
  if w < 1 then isoWeeksInYear (y - 1)
  else if w > isoWeeksInYear y then 1
  else w

/-- `datetime.strptime(s, '%Y%m%d')` on a well-formed 8-digit string; `none`
models the `ValueError` raised on anything else. -/
def strptime8 (s : Str) : Option (Nat × Nat × Nat) :=
  if s.length = 8 && s.all Char.isDigit then
    let y := strToNat (s.take 4)
    let m := strToNat ((s.drop 4).take 2)
    let d := strToNat ((s.drop 6).take 2)
    if 1 ≤ m && m ≤ 12 && 1 ≤ d && d ≤ daysInMonth y m then some (y, m, d)
    else none
  else none

/-- The bucket key of a snapshot timestamp, as computed in
`sample_weekly_snapshots`: `(date.year, date.isocalendar()[1])` of
`strptime(timestamp[:8], '%Y%m%d')`. -/
def year_week (timestamp : Str) : Option (Nat × Nat) :=
  match strptime8 (timestamp.take 8) with
  | some (y, m, d) => some (y, isoWeekNumber y m d)
  | none => none

/-- The dictionary-building loop of `sample_weekly_snapshots`: keep only the
first snapshot of each `(year, week)` key; `none` models the exception raised
on an unparsable timestamp. -/
def sampleLoop : List (Str × Str) → List ((Nat × Nat) × (Str × Str)) →
    Option (List ((Nat × Nat) × (Str × Str)))
  | [], acc => some acc
  | (timestamp, url) :: rest, acc =>
    match year_week timestamp with
    | none => none
    | some key =>
      if acc.any (fun p => decide (p.1 = key)) then sampleLoop rest acc
      else sampleLoop rest (acc ++ [(key, (timestamp, url))])

/-- `sample_weekly_snapshots`: one snapshot per `(year, ISO week)` bucket,
first seen wins, output sorted by timestamp. -/
def sample_weekly_snapshots (snapshots : List (Str × Str)) :
    Option (List (Str × Str)) :=
  match sampleLoop snapshots [] with
  | some weekly =>
      some (pySorted (fun a b => strLeB a.1 b.1) (weekly.map (·.2)))
  | none => none

/-- The value-extraction core of `fetch_google_sheets_data` of
scrape_strike_data_all.py (and scrape_live_site.py): given `data['values'][0]`
of the Sheets API response, clean the committed cell, require it to be numeric,
and derive `needed = 11000000 - committed`; `none` models the `return None, None`
branches (empty values, placeholder cell). -/
def fetch_google_sheets_values (values : List Str) : Option (Str × Str) :=
  match values with
  | [] => none
  | v :: _ =>
    let committed := pyStrip (removeCommas v)
    if pyIsdigit committed then
      let committed_int : Int := (strToNat committed : Int)
      let needed_int : Int := 11000000 - committed_int
      some (intToStr committed_int, intToStr needed_int)
    else none

/-- `scrape_snapshot` of scrape_strike_data_all.py, with the network round
trips (page fetch, API-URL extraction, Sheets call) abstracted into `fetchData`,
which returns what `fetch_google_sheets_data` returns for this snapshot
(`none` covering HTTP errors, timeouts, missing API URL and placeholder data). -/
def scrape_snapshot (fetchData : Str → Str → Option (Str × Str))
    (timestamp url : Str) : Option MetricRecord :=
  match fetchData timestamp url with
  | some cn =>
    if cn.1.isEmpty || cn.2.isEmpty then none
    else some ⟨formatDate timestamp, timestamp, cn.1, cn.2, waybackUrl timestamp url⟩
  | none => none

/-- Terminal state of one snapshot candidate in a harvest run. -/
inductive CandidateClass where
  | skippedExisting
  | extracted
  | failed
deriving DecidableEq, Repr

/-- The per-candidate body of the scrape loop in `main` of
scrape_strike_data_all.py: skip when the initially loaded data already has the
candidate's date, otherwise scrape and insert the result into `all_results`. -/
def harvestStep (fetchData : Str → Str → Option (Str × Str)) (existing : Dict)
    (st : Dict × List CandidateClass) (cand : Str × Str) :
    Dict × List CandidateClass :=
  let formatted_date := formatDate cand.1
  if (dictFind existing formatted_date).isSome then
    (st.1, st.2 ++ [CandidateClass.skippedExisting])
  else
    match scrape_snapshot fetchData cand.1 cand.2 with
    | some result => (dictInsert st.1 result.date result, st.2 ++ [CandidateClass.extracted])
    | none => (st.1, st.2 ++ [CandidateClass.failed])

/-- The scrape loop of `main` of scrape_strike_data_all.py: `all_results`
starts as a copy of the loaded data and accumulates new results. -/
def harvestLoop (fetchData : Str → Str → Option (Str × Str)) (existing : Dict)
    (snapshots : List (Str × Str)) : Dict × List CandidateClass :=
  snapshots.foldl (harvestStep fetchData existing) (existing, [])

/-- The keys of `all_results` in output order: `sorted(all_results.keys())`. -/
def sortedDates (m : Dict) : List Str := pySorted strLeB (m.map (·.1))

/-- The data rows written by `main` of scrape_strike_data_all.py:
`for date in sorted(all_results.keys()): writer.writerow(all_results[date])`. -/
def persistRows (m : Dict) : List MetricRecord :=
  (sortedDates m).filterMap (fun d => dictFind m d)

/-- The CSV header row written by `writer.writeheader()`. -/
def headerRow : List Str :=
  [str "date", str "timestamp", str "committed", str "needed", str "url"]

/-- The cells of one CSV data row. -/
def recordCells (r : MetricRecord) : List Str :=
  [r.date, r.timestamp, r.committed, r.needed, r.url]

/-- The full CSV file written at the end of a run: one header row, then one
data row per date of `all_results`, sorted ascending. -/
def persistFile (m : Dict) : List (List Str) :=
  headerRow :: (persistRows m).map recordCells

/-- Outcome of one harvest run of scrape_strike_data_all.py. -/
structure RunResult where
  rows : List MetricRecord
  classes : List CandidateClass
  skipped_count : Nat
  new_count : Nat
deriving DecidableEq, Repr

/-- `main` of scrape_strike_data_all.py as a function of the discovered
snapshot list, the state of the CSV file (`none` = missing) and the abstract
fetcher: load existing valid data, scrape the not-yet-satisfied candidates,
and rewrite the CSV sorted by date. -/
def harvest_main (fetchData : Str → Str → Option (Str × Str))
    (file : Option (List MetricRecord)) (snapshots : List (Str × Str)) :
    RunResult :=
  let existing := load_existing_file file
  let st := harvestLoop fetchData existing snapshots
  { rows := persistRows st.1
    classes := st.2
    skipped_count := st.2.countP (fun c => decide (c = CandidateClass.skippedExisting))
    new_count := st.2.countP (fun c => decide (c = CandidateClass.extracted)) }

/-- Failure raised when neither live discovery nor a cache file is available. -/
inductive DiscoveryUnavailable where
  | fileNotFound
deriving DecidableEq, Repr

/-- `fetch_cdx_snapshots` as a function of the live CDX response
(`none` = the request failed) and the cache file `wayback_snapshots.json`
(`none` = missing). Returns the snapshot data together with the state of the
cache file afterwards, or propagates `FileNotFoundError`. -/
def fetch_cdx_snapshots (live : Option α) (cache : Option α) :
    Except DiscoveryUnavailable (α × Option α) :=
  match live with
  | some fresh => Except.ok (fresh, some fresh)
  | none =>
    match cache with
    | some cached => Except.ok (cached, some cached)
    | none => Except.error DiscoveryUnavailable.fileNotFound

/-- `load_existing_data` of scrape_live_site.py: the raw row list of the
fine-grained CSV, `[]` when the file is missing. -/
def load_existing_data_live (file : Option (List MetricRecord)) : List MetricRecord :=
  match file with
  | none => []
  | some rows => rows

/-- The list comprehension of `get_latest_timestamp`:
`[row['timestamp'] for row in existing_data if row.get('timestamp')]`. -/
def liveTimestamps (existing : List MetricRecord) : List Str :=
  existing.filterMap
    (fun row => if row.timestamp.isEmpty then none else some row.timestamp)

/-- `get_latest_timestamp` of scrape_live_site.py: the maximum of the
non-empty timestamp fields, `None` when there is none. -/
def get_latest_timestamp (existing : List MetricRecord) : Option Str :=
  match liveTimestamps existing with
  | [] => none
  | t :: ts => some (ts.foldl (fun a b => if strLtB a b then b else a) t)

/-- The append-if-newer decision of `main` of scrape_live_site.py: the new
capture is appended unless an existing timestamp is at least as large. -/
def live_append (file : List MetricRecord) (new_data : MetricRecord) :
    List MetricRecord :=
  match get_latest_timestamp file with
  | some latest =>
    if strLeB new_data.timestamp latest then file else file ++ [new_data]
  | none => file ++ [new_data]

/-- `scrape_snapshot` of scrape_strike_data.py (the playwright variant), with
the page rendering and `extract_counts` abstracted into `extract`: each of the
two extracted strings may be absent; a record is produced whenever both are
present and non-empty, with commas removed and no further validation. -/
def scrape_snapshot_pw (extract : Str → Str → Option Str × Option Str)
    (timestamp url : Str) : Option MetricRecord :=
  match extract timestamp url with
  | (some committed, some needed) =>
    if committed.isEmpty || needed.isEmpty then none
    else some ⟨formatDate timestamp, timestamp, removeCommas committed,
      removeCommas needed, waybackUrl timestamp url⟩
  | _ => none

/-- The scrape loop of `main` of scrape_strike_data.py: every returned record
is appended to the CSV immediately. -/
def pw_harvest (extract : Str → Str → Option Str × Option Str)
    (snapshots : List (Str × Str)) : List MetricRecord :=
  snapshots.foldl (fun acc cand =>
    match scrape_snapshot_pw extract cand.1 cand.2 with
    | some result => acc ++ [result]
    | none => acc) []

/-! Basic facts about characters and the string order. -/

theorem digit_not_ws {c : Char} (h : c.isDigit = true) : c.isWhitespace = false := by
  simp only [Char.isDigit, decide_eq_true_eq, Bool.and_eq_true] at h
  obtain ⟨h1, h2⟩ := h
  simp only [Char.isWhitespace, Bool.or_eq_false_iff, decide_eq_false_iff_not]
  refine ⟨⟨⟨?_, ?_⟩, ?_⟩, ?_⟩ <;> intro hh <;> subst hh <;> simp_all

theorem digit_ne_comma {c : Char} (h : c.isDigit = true) : c ≠ ',' := by
  simp only [Char.isDigit, decide_eq_true_eq, Bool.and_eq_true] at h
  obtain ⟨h1, h2⟩ := h
  intro hh
  subst hh
  simp_all

theorem char_toNat_inj {a b : Char} (h : a.toNat = b.toNat) : a = b := by
  apply Char.eq_of_val_eq
  apply UInt32.ext
  exact h

theorem strLtB_irrefl (a : Str) : strLtB a a = false := by
  induction a with
  | nil => rfl
  | cons c t ih => simp [strLtB, ih]

theorem strLtB_trans : ∀ {a b c : Str}, strLtB a b = true → strLtB b c = true →
    strLtB a c = true := by
  intro a
  induction a with
  | nil =>
    intro b c h1 h2
    cases b with
    | nil => simp [strLtB] at h1
    | cons y ys =>
      cases c with
      | nil => simp [strLtB] at h2
      | cons z zs => rfl
  | cons x xs ih =>
    intro b c h1 h2
    cases b with
    | nil => simp [strLtB] at h1
    | cons y ys =>
      cases c with
      | nil => simp [strLtB] at h2
      | cons z zs =>
        simp only [strLtB] at h1 h2 ⊢
        by_cases hxy : x.toNat < y.toNat
        · by_cases hyz : y.toNat < z.toNat
          · simp [Nat.lt_trans hxy hyz]
          · by_cases hzy : z.toNat < y.toNat
            · simp [hyz, hzy] at h2
            · have hxz : x.toNat < z.toNat := by omega
              simp [hxz]
        · by_cases hyx : y.toNat < x.toNat
          · simp [hxy, hyx] at h1
          · simp only [hxy, if_false, hyx] at h1
            by_cases hyz : y.toNat < z.toNat
            · have hxz : x.toNat < z.toNat := by omega
              simp [hxz]
            · by_cases hzy : z.toNat < y.toNat
              · simp [hyz, hzy] at h2
              · simp only [hyz, if_false, hzy] at h2
                have hxz : ¬x.toNat < z.toNat := by omega
                have hzx : ¬z.toNat < x.toNat := by omega
                simp only [hxz, if_false, hzx]
                exact ih h1 h2

theorem strLtB_connex : ∀ {a b : Str}, strLtB a b = false → strLtB b a = false →
    a = b := by
  intro a
  induction a with
  | nil =>
    intro b h1 h2
    cases b with
    | nil => rfl
    | cons y ys => simp [strLtB] at h1
  | cons x xs ih =>
    intro b h1 h2
    cases b with
    | nil => simp [strLtB] at h2
    | cons y ys =>
      simp only [strLtB] at h1 h2
      by_cases hxy : x.toNat < y.toNat
      · simp [hxy] at h1
      · by_cases hyx : y.toNat < x.toNat
        · simp [hyx] at h2
        · simp only [hxy, if_false, hyx] at h1 h2
          have hx : x = y := char_toNat_inj (by omega)
          rw [hx, ih h1 h2]

theorem strLtB_asymm {a b : Str} (h : strLtB a b = true) : strLtB b a = false := by
  cases hba : strLtB b a with
  | false => rfl
  | true => exact absurd (strLtB_trans h hba) (by simp [strLtB_irrefl])

theorem strLeB_refl (a : Str) : strLeB a a = true := by
  simp [strLeB, strLtB_irrefl]

theorem strLeB_total (a b : Str) : strLeB a b = true ∨ strLeB b a = true := by
  by_cases h : strLtB b a = true
  · right
    simp [strLeB, strLtB_asymm h]
  · left
    simp [strLeB]
    exact Bool.eq_false_iff.mpr h

theorem strLeB_of_ltB {a b : Str} (h : strLtB a b = true) : strLeB a b = true := by
  simp [strLeB, strLtB_asymm h]

theorem strLe_lt_trans {a b c : Str} (h1 : strLeB a b = true)
    (h2 : strLtB b c = true) : strLtB a c = true := by
  simp only [strLeB, Bool.not_eq_true'] at h1
  cases hab : strLtB a b with
  | true => exact strLtB_trans hab h2
  | false => rw [strLtB_connex hab h1]; exact h2

theorem strLeB_trans {a b c : Str} (h1 : strLeB a b = true)
    (h2 : strLeB b c = true) : strLeB a c = true := by
  simp only [strLeB, Bool.not_eq_true']
  cases hca : strLtB c a with
  | false => rfl
  | true =>
    have hba : strLtB b a = true := strLe_lt_trans h2 hca
    have haa : strLtB a a = true := strLe_lt_trans h1 hba
    rw [strLtB_irrefl] at haa
    exact absurd haa (by simp)

theorem strLeB_antisymm {a b : Str} (h1 : strLeB a b = true)
    (h2 : strLeB b a = true) : a = b := by
  simp only [strLeB, Bool.not_eq_true'] at h1 h2
  exact strLtB_connex h2 h1

/-! Cleanup is the identity on all-digit strings. -/

theorem removeCommas_digits {s : Str} (h : s.all Char.isDigit = true) :
    removeCommas s = s := by
  unfold removeCommas
  apply List.filter_eq_self.mpr
  intro c hc
  have hd := List.all_eq_true.mp h c hc
  simp [digit_ne_comma hd]

theorem dropWhile_ws_digits {s : Str} (h : ∀ c ∈ s, c.isDigit = true) :
    s.dropWhile Char.isWhitespace = s := by
  cases s with
  | nil => rfl
  | cons c t =>
    rw [List.dropWhile_cons]
    simp [digit_not_ws (h c (by simp))]

theorem pyStrip_digits {s : Str} (h : s.all Char.isDigit = true) : pyStrip s = s := by
  unfold pyStrip
  have h' : ∀ c ∈ s, c.isDigit = true := List.all_eq_true.mp h
  rw [dropWhile_ws_digits h']
  have h'' : ∀ c ∈ s.reverse, c.isDigit = true := by
    intro c hc
    exact h' c (List.mem_reverse.mp hc)
  rw [dropWhile_ws_digits h'', List.reverse_reverse]

/-- C8: store load is tolerant of a missing backing file — both the
reconciliation loader of scrape_strike_data_all.py and the raw loader of
scrape_live_site.py return the empty mapping when the CSV file does not
exist, instead of failing. -/
theorem load_missing_file_empty :
    load_existing_file none = [] ∧ load_existing_data_live none = [] :=
  ⟨rfl, rfl⟩

/-- C6: discovery fallback — when the live CDX call fails and a cache file
exists, `fetch_cdx_snapshots` returns the cached snapshot set with the cache
unchanged; when the live call fails and no cache exists it propagates
`DiscoveryUnavailable`; and every successful live discovery overwrites the
cache with the fresh response. -/
theorem discovery_fallback {α : Type} (fresh cached : α) (cache : Option α) :
    fetch_cdx_snapshots none (some cached) = Except.ok (cached, some cached) ∧
    @fetch_cdx_snapshots α none none =
      Except.error DiscoveryUnavailable.fileNotFound ∧
    fetch_cdx_snapshots (some fresh) cache = Except.ok (fresh, some fresh) :=
  ⟨rfl, rfl, rfl⟩

/-- C7: derived field — for every all-digit raw committed reading with value
`c`, the Sheets extractor returns the decimal strings of `c` and of
`11000000 - c`; committed 4000000 yields needed 7000000, and a committed value
above the goal yields a literal negative needed string, not a clamped zero. -/
theorem derived_needed_field (raw : Str) (h : pyIsdigit raw = true) :
    fetch_google_sheets_values [raw] =
      some (intToStr ((strToNat raw : Nat) : Int),
            intToStr (11000000 - ((strToNat raw : Nat) : Int))) ∧
    fetch_google_sheets_values [str "4000000"] =
      some (str "4000000", str "7000000") ∧
    fetch_google_sheets_values [str "12,000,000"] =
      some (str "12000000", str "-1000000") := by
  refine ⟨?_, by decide, by decide⟩
  have hd : raw.all Char.isDigit = true := by
    unfold pyIsdigit at h
    cases hall : raw.all Char.isDigit with
    | true => rfl
    | false => rw [hall, Bool.and_false] at h; exact absurd h (by simp)
  have hred : fetch_google_sheets_values [raw] =
      (if pyIsdigit (pyStrip (removeCommas raw)) then
        some (intToStr ((strToNat (pyStrip (removeCommas raw)) : Nat) : Int),
          intToStr (11000000 - ((strToNat (pyStrip (removeCommas raw)) : Nat) : Int)))
       else none) := rfl
  rw [hred, removeCommas_digits hd, pyStrip_digits hd, if_pos h]

/-- Witness for C7 at committed = 4000000. -/
theorem derived_needed_field_witness :
    pyIsdigit (str "4000000") = true ∧
    fetch_google_sheets_values [str "4000000"] =
      some (intToStr ((strToNat (str "4000000") : Nat) : Int),
            intToStr (11000000 - ((strToNat (str "4000000") : Nat) : Int))) :=
  ⟨by decide, (derived_needed_field (str "4000000") (by decide)).1⟩

/-! C3: the validity filter and what the two harvesters do with invalid
readings. -/

theorem loadRow_invalid {acc : Dict} {row : MetricRecord}
    (h : is_valid_data row.committed row.needed = false) : loadRow acc row = acc := by
  unfold loadRow
  split_ifs with h1 h2 h3
  · rfl
  · rfl
  · rw [h] at h3; exact absurd h3 (by simp)
  · rfl

theorem load_existing_data_filter_valid (rows : List MetricRecord) :
    load_existing_data
      (rows.filter (fun r => is_valid_data r.committed r.needed)) =
    load_existing_data rows := by
  unfold load_existing_data
  suffices h : ∀ (acc : Dict),
      (rows.filter (fun r => is_valid_data r.committed r.needed)).foldl loadRow acc =
      rows.foldl loadRow acc from h []
  induction rows with
  | nil => intro acc; rfl
  | cons r t ih =>
    intro acc
    cases hv : is_valid_data r.committed r.needed with
    | true => rw [List.filter_cons_of_pos (by simp [hv]), List.foldl_cons,
        List.foldl_cons, ih]
    | false => rw [List.filter_cons_of_neg (by simp [hv]), List.foldl_cons,
        loadRow_invalid hv, ih]

/-- Counterexample to C3 as stated: the weekly (playwright) harvester of
scrape_strike_data.py writes an extracted placeholder reading `"#####"` to the
CSV even though the validity filter classifies it as invalid, so not every
invalid reading is discarded and kept out of the persisted store. -/
theorem pw_harvester_writes_invalid_reading :
    pw_harvest (fun _ _ => (some (str "#####"), some (str "#####")))
      [(str "20250101000000", str "u")] =
      [⟨str "2025-01-01", str "20250101000000", str "#####", str "#####",
        waybackUrl (str "20250101000000") (str "u")⟩] ∧
    is_valid_data (str "#####") (str "#####") = false := by
  constructor
  · rfl
  · decide

/-- C3 (amended): a raw reading is valid iff, after removing commas and
stripping surrounding whitespace, both values are all-digit strings and
neither original string contains '#'; "1,234,567" is valid and normalizes to
1234567, "#####" is invalid. Readings whose committed cell is non-numeric
after cleanup are discarded by the Sheets extractor, and rows failing the
filter are dropped when the store is loaded; but the weekly harvester writes
extracted non-empty readings without applying the filter. -/
theorem validity_filter_amended :
    (∀ c n : Str, is_valid_data c n = true ↔
      (pyIsdigit (pyStrip (removeCommas c)) = true ∧
       pyIsdigit (pyStrip (removeCommas n)) = true ∧
       c.contains '#' = false ∧ n.contains '#' = false)) ∧
    is_valid_data (str "1,234,567") (str "1,234,567") = true ∧
    pyStrip (removeCommas (str "1,234,567")) = str "1234567" ∧
    is_valid_data (str "#####") (str "#####") = false ∧
    (∀ raw : Str, pyIsdigit (pyStrip (removeCommas raw)) = false →
      fetch_google_sheets_values [raw] = none) ∧
    (∀ rows : List MetricRecord,
      load_existing_data
        (rows.filter (fun r => is_valid_data r.committed r.needed)) =
      load_existing_data rows) := by
  refine ⟨?_, by decide, by decide, by decide, ?_, load_existing_data_filter_valid⟩
  · intro c n
    constructor
    · intro h
      unfold is_valid_data at h
      by_cases he : (c.isEmpty || n.isEmpty) = true
      · rw [if_pos he] at h
        exact absurd h (by simp)
      · rw [if_neg he] at h
        simpa [Bool.and_eq_true, Bool.not_eq_true', and_assoc] using h
    · rintro ⟨h1, h2, h3, h4⟩
      unfold is_valid_data
      have hce : c.isEmpty = false := by
        cases hc : c.isEmpty with
        | false => rfl
        | true =>
          rw [List.isEmpty_iff.mp hc] at h1
          exact absurd h1 (by decide)
      have hne : n.isEmpty = false := by
        cases hn : n.isEmpty with
        | false => rfl
        | true =>
          rw [List.isEmpty_iff.mp hn] at h2
          exact absurd h2 (by decide)
      rw [hce, hne, if_neg (by simp)]
      simp only [Bool.and_eq_true, Bool.not_eq_true']
      exact ⟨⟨⟨h1, h2⟩, h3⟩, h4⟩
  · intro raw h
    have hred : ∀ v : Str, fetch_google_sheets_values [v] =
        (if pyIsdigit (pyStrip (removeCommas v)) then
          some (intToStr ((strToNat (pyStrip (removeCommas v)) : Nat) : Int),
            intToStr (11000000 - ((strToNat (pyStrip (removeCommas v)) : Nat) : Int)))
         else none) := fun _ => rfl
    rw [hred, if_neg (by simp [h])]

/-- Witness for C3 (amended): the iff applied at the spec's example inputs. -/
theorem validity_filter_amended_witness :
    is_valid_data (str "1,234,567") (str "9,765,433") = true :=
  (validity_filter_amended.1 (str "1,234,567") (str "9,765,433")).mpr
    ⟨by decide, by decide, by decide, by decide⟩

/-! C9: the append-if-newer decision of the live-capture variant. -/

theorem foldl_max_mem (t : Str) (ts : List Str) :
    ts.foldl (fun a b => if strLtB a b then b else a) t ∈ t :: ts := by
  induction ts generalizing t with
  | nil => simp
  | cons x xs ih =>
    rw [List.foldl_cons]
    by_cases h : strLtB t x = true
    · simp only [if_pos h]
      have h2 := ih x
      simp only [List.mem_cons] at h2 ⊢
      tauto
    · simp only [if_neg h]
      have h2 := ih t
      simp only [List.mem_cons] at h2 ⊢
      tauto

theorem foldl_max_ge (t : Str) (ts : List Str) :
    ∀ x ∈ t :: ts, strLeB x (ts.foldl (fun a b => if strLtB a b then b else a) t) = true := by
  induction ts generalizing t with
  | nil =>
    intro x hx
    rw [List.mem_singleton] at hx
    subst hx
    exact strLeB_refl x
  | cons y ys ih =>
    intro x hx
    rw [List.foldl_cons]
    by_cases h : strLtB t y = true
    · simp only [if_pos h]
      rcases List.mem_cons.mp hx with hxt | hx'
      · rw [hxt]
        exact strLeB_trans (strLeB_of_ltB h) (ih y y (by simp))
      · exact ih y x hx'
    · simp only [if_neg h]
      have hyt : strLeB y t = true := by
        simp only [strLeB, Bool.not_eq_true']
        exact Bool.eq_false_iff.mpr h
      rcases List.mem_cons.mp hx with hxt | hx'
      · rw [hxt]
        exact ih t t (by simp)
      · rcases List.mem_cons.mp hx' with hxy | hx''
        · rw [hxy]
          exact strLeB_trans hyt (ih t t (by simp))
        · exact ih t x (by simp [hx''])

/-- C9: live append-if-newer — the live-capture variant appends its single
captured record to the file exactly when its timestamp is strictly greater
than every timestamp already present (in particular when the file is empty or
has no timestamps); otherwise the file is left unchanged. -/
theorem live_append_iff (file : List MetricRecord) (new_data : MetricRecord) :
    ((∀ t ∈ liveTimestamps file, strLtB t new_data.timestamp = true) →
      live_append file new_data = file ++ [new_data]) ∧
    (live_append file new_data = file ++ [new_data] →
      (∀ t ∈ liveTimestamps file, strLtB t new_data.timestamp = true)) ∧
    (live_append file new_data = file ++ [new_data] ∨
      live_append file new_data = file) := by
  cases hlt : liveTimestamps file with
  | nil =>
    have hg : get_latest_timestamp file = none := by
      unfold get_latest_timestamp
      rw [hlt]
    have happ : live_append file new_data = file ++ [new_data] := by
      unfold live_append
      rw [hg]
    refine ⟨fun _ => happ, fun _ => ?_, Or.inl happ⟩
    intro t ht
    exact absurd ht (by simp)
  | cons t ts =>
    have hg : get_latest_timestamp file = some
        (ts.foldl (fun a b => if strLtB a b then b else a) t) := by
      unfold get_latest_timestamp
      rw [hlt]
    have hm : (ts.foldl (fun a b => if strLtB a b then b else a) t) ∈ t :: ts :=
      foldl_max_mem t ts
    have hub : ∀ x ∈ t :: ts,
        strLeB x (ts.foldl (fun a b => if strLtB a b then b else a) t) = true :=
      foldl_max_ge t ts
    have hbody : live_append file new_data =
        (if strLeB new_data.timestamp (ts.foldl (fun a b => if strLtB a b then b else a) t)
         then file else file ++ [new_data]) := by
      unfold live_append
      rw [hg]
    by_cases hc : strLeB new_data.timestamp
        (ts.foldl (fun a b => if strLtB a b then b else a) t) = true
    · rw [if_pos hc] at hbody
      refine ⟨?_, ?_, Or.inr hbody⟩
      · intro hall
        have hmlt := hall _ hm
        simp only [strLeB, Bool.not_eq_true'] at hc
        rw [hmlt] at hc
        exact absurd hc (by simp)
      · intro heq
        exfalso
        rw [hbody] at heq
        have := congrArg List.length heq
        simp at this
    · rw [if_neg hc] at hbody
      have hmn : strLtB (ts.foldl (fun a b => if strLtB a b then b else a) t)
          new_data.timestamp = true := by
        cases hx : strLtB (ts.foldl (fun a b => if strLtB a b then b else a) t)
            new_data.timestamp with
        | true => rfl
        | false => exact absurd (by simp [strLeB, hx] : strLeB new_data.timestamp
            (ts.foldl (fun a b => if strLtB a b then b else a) t) = true) hc
      refine ⟨fun _ => hbody, fun _ => ?_, Or.inl hbody⟩
      intro x hx
      exact strLe_lt_trans (hub x hx) hmn

/-- Witness for C9: a strictly newer capture is appended. -/
theorem live_append_iff_witness :
    live_append
      [⟨str "2025-01-01", str "20250101000000", str "5", str "10999995", []⟩]
      ⟨str "2025-01-02", str "20250102000000", str "6", str "10999994", []⟩ =
    [⟨str "2025-01-01", str "20250101000000", str "5", str "10999995", []⟩] ++
      [⟨str "2025-01-02", str "20250102000000", str "6", str "10999994", []⟩] :=
  (live_append_iff _ _).1 (by decide)

/-! Association-list lemmas for the Python dict model. -/

theorem any_key_iff (m : Dict) (k : Str) :
    m.any (fun p => decide (p.1 = k)) = true ↔ k ∈ m.map (·.1) := by
  rw [List.any_eq_true]
  constructor
  · rintro ⟨p, hp, hpk⟩
    exact List.mem_map.mpr ⟨p, hp, by simpa using hpk⟩
  · intro h
    obtain ⟨p, hp, hpk⟩ := List.mem_map.mp h
    exact ⟨p, hp, by simp [hpk]⟩

theorem keys_replace (m : Dict) (k : Str) (v : MetricRecord) :
    (m.map (fun p => if p.1 = k then (k, v) else p)).map (·.1) = m.map (·.1) := by
  rw [List.map_map]
  apply List.map_congr_left
  intro p _
  by_cases hpk : p.1 = k
  · simp [hpk]
  · simp [hpk]

theorem find?_map_replace (m : Dict) (k : Str) (v : MetricRecord) :
    (m.map (fun p => if p.1 = k then (k, v) else p)).find?
      (fun p => decide (p.1 = k)) =
    (m.find? (fun p => decide (p.1 = k))).map (fun _ => (k, v)) := by
  induction m with
  | nil => rfl
  | cons p t ih =>
    by_cases hp : p.1 = k
    · rw [List.map_cons, if_pos hp, List.find?_cons_of_pos _ (by simp),
        List.find?_cons_of_pos _ (by simp [hp])]
      rfl
    · rw [List.map_cons, if_neg hp, List.find?_cons_of_neg _ (by simp [hp]),
        List.find?_cons_of_neg _ (by simp [hp])]
      exact ih

theorem find?_map_replace_ne (m : Dict) {k k' : Str} (v : MetricRecord)
    (h : k' ≠ k) :
    (m.map (fun p => if p.1 = k then (k, v) else p)).find?
      (fun p => decide (p.1 = k')) =
    m.find? (fun p => decide (p.1 = k')) := by
  induction m with
  | nil => rfl
  | cons p t ih =>
    by_cases hp : p.1 = k
    · rw [List.map_cons, if_pos hp, List.find?_cons_of_neg _ (by simp [Ne.symm h]),
        List.find?_cons_of_neg _ (by simp [hp, Ne.symm h])]
      exact ih
    · rw [List.map_cons, if_neg hp]
      by_cases hp' : p.1 = k'
      · rw [List.find?_cons_of_pos _ (by simp [hp']),
          List.find?_cons_of_pos _ (by simp [hp'])]
      · rw [List.find?_cons_of_neg _ (by simp [hp']),
          List.find?_cons_of_neg _ (by simp [hp'])]
        exact ih

theorem dictFind_insert_self (m : Dict) (k : Str) (v : MetricRecord) :
    dictFind (dictInsert m k v) k = some v := by
  unfold dictInsert dictFind
  by_cases hany : m.any (fun p => decide (p.1 = k)) = true
  · rw [if_pos hany, find?_map_replace]
    obtain ⟨p, hp, hpk⟩ := List.any_eq_true.mp hany
    have hs : (m.find? fun p => decide (p.1 = k)).isSome = true :=
      List.find?_isSome.mpr ⟨p, hp, hpk⟩
    obtain ⟨q, hq⟩ := Option.isSome_iff_exists.mp hs
    rw [hq]
    rfl
  · rw [if_neg hany, List.find?_append]
    have hanyf : m.any (fun p => decide (p.1 = k)) = false := by
      cases h' : m.any (fun p => decide (p.1 = k)) with
      | false => rfl
      | true => exact absurd h' hany
    have hnone : m.find? (fun p => decide (p.1 = k)) = none := by
      rw [List.find?_eq_none]
      exact List.any_eq_false.mp hanyf
    rw [hnone, Option.none_or, List.find?_cons_of_pos _ (by simp)]
    rfl

theorem dictFind_insert_ne (m : Dict) {k k' : Str} (v : MetricRecord)
    (h : k' ≠ k) : dictFind (dictInsert m k v) k' = dictFind m k' := by
  unfold dictInsert dictFind
  by_cases hany : m.any (fun p => decide (p.1 = k)) = true
  · rw [if_pos hany, find?_map_replace_ne m v h]
  · rw [if_neg hany, List.find?_append, List.find?_cons_of_neg _ (by simp [Ne.symm h])]
    simp

theorem dictFind_insert_cases {m : Dict} {k d : Str} {v r : MetricRecord}
    (h : dictFind (dictInsert m k v) d = some r) :
    (d = k ∧ r = v) ∨ dictFind m d = some r := by
  by_cases hd : d = k
  · subst hd
    rw [dictFind_insert_self] at h
    exact Or.inl ⟨rfl, (Option.some_inj.mp h).symm⟩
  · right
    rw [dictFind_insert_ne m v hd] at h
    exact h

theorem dictFind_isSome_iff (m : Dict) (k : Str) :
    (dictFind m k).isSome = true ↔ k ∈ m.map (·.1) := by
  unfold dictFind
  constructor
  · intro h
    cases hf : m.find? (fun p => decide (p.1 = k)) with
    | none => rw [hf] at h; exact absurd h (by simp)
    | some p =>
      have hp1 : p.1 = k := by simpa using List.find?_some hf
      exact List.mem_map.mpr ⟨p, List.mem_of_find?_eq_some hf, hp1⟩
  · intro hk
    obtain ⟨p, hp, hpk⟩ := List.mem_map.mp hk
    have hs : (m.find? (fun p => decide (p.1 = k))).isSome = true :=
      List.find?_isSome.mpr ⟨p, hp, by simp [hpk]⟩
    cases hf : m.find? (fun p => decide (p.1 = k)) with
    | none => rw [hf] at hs; exact absurd hs (by simp)
    | some q => rfl

theorem mem_keys_insert {m : Dict} {k d : Str} {v : MetricRecord} :
    d ∈ (dictInsert m k v).map (·.1) ↔ d ∈ m.map (·.1) ∨ d = k := by
  unfold dictInsert
  by_cases hany : m.any (fun p => decide (p.1 = k)) = true
  · rw [if_pos hany, keys_replace]
    constructor
    · exact Or.inl
    · rintro (h | he)
      · exact h
      · rw [he]
        exact (any_key_iff m k).mp hany
  · rw [if_neg hany, List.map_append]
    simp only [List.map_cons, List.map_nil, List.mem_append, List.mem_singleton]

theorem nodup_keys_insert {m : Dict} {k : Str} {v : MetricRecord}
    (h : (m.map (·.1)).Nodup) : ((dictInsert m k v).map (·.1)).Nodup := by
  unfold dictInsert
  by_cases hany : m.any (fun p => decide (p.1 = k)) = true
  · rw [if_pos hany, keys_replace]
    exact h
  · rw [if_neg hany, List.map_append, List.nodup_append]
    refine ⟨h, by simp, ?_⟩
    intro x hx hx2
    simp only [List.map_cons, List.map_nil, List.mem_singleton] at hx2
    rw [hx2] at hx
    have hanyf : m.any (fun p => decide (p.1 = k)) = false := by
      cases h' : m.any (fun p => decide (p.1 = k)) with
      | false => rfl
      | true => exact absurd h' hany
    exact absurd ((any_key_iff m k).mpr hx) (by simp [hanyf])

theorem dictFind_entry_mem {m : Dict} {k : Str} {r : MetricRecord}
    (h : dictFind m k = some r) : (k, r) ∈ m := by
  unfold dictFind at h
  cases hf : m.find? (fun p => decide (p.1 = k)) with
  | none => rw [hf] at h; exact absurd h (by simp)
  | some p =>
    rw [hf] at h
    obtain ⟨p1, p2⟩ := p
    have hp1 : p1 = k := by simpa using List.find?_some hf
    have hp2 : p2 = r := by simpa using h
    subst hp1
    subst hp2
    exact List.mem_of_find?_eq_some hf

/-! Lemmas about the model of Python `sorted`. -/

theorem insSorted_perm (le : α → α → Bool) (x : α) (l : List α) :
    (insSorted le x l).Perm (x :: l) := by
  induction l with
  | nil => exact List.Perm.refl _
  | cons y t ih =>
    unfold insSorted
    by_cases h : le y x = true
    · rw [if_pos h]
      exact (List.Perm.cons y ih).trans (List.Perm.swap x y t)
    · rw [if_neg h]

theorem pySorted_perm (le : α → α → Bool) (l : List α) : (pySorted le l).Perm l := by
  suffices h : ∀ (l acc : List α),
      (l.foldl (fun acc x => insSorted le x acc) acc).Perm (acc ++ l) by
    simpa using h l []
  intro l
  induction l with
  | nil => intro acc; simp
  | cons x t ih =>
    intro acc
    rw [List.foldl_cons]
    exact (ih _).trans
      ((List.Perm.append_right t (insSorted_perm le x acc)).trans
        List.perm_middle.symm)

theorem insSorted_pairwise (le : α → α → Bool)
    (htrans : ∀ a b c, le a b = true → le b c = true → le a c = true)
    (htot : ∀ a b, le a b = true ∨ le b a = true) (x : α) {l : List α}
    (h : l.Pairwise (fun a b => le a b = true)) :
    (insSorted le x l).Pairwise (fun a b => le a b = true) := by
  induction l with
  | nil => simp [insSorted]
  | cons y t ih =>
    unfold insSorted
    rcases List.pairwise_cons.mp h with ⟨hy, ht⟩
    by_cases hle : le y x = true
    · rw [if_pos hle]
      rw [List.pairwise_cons]
      constructor
      · intro z hz
        have hz' : z ∈ x :: t := (insSorted_perm le x t).mem_iff.mp hz
        rcases List.mem_cons.mp hz' with hzx | hzt
        · rw [hzx]; exact hle
        · exact hy z hzt
      · exact ih ht
    · rw [if_neg hle]
      have hxy : le x y = true := (htot x y).resolve_right hle
      rw [List.pairwise_cons]
      constructor
      · intro z hz
        rcases List.mem_cons.mp hz with hzy | hzt
        · rw [hzy]; exact hxy
        · exact htrans x y z hxy (hy z hzt)
      · exact h

theorem pySorted_pairwise (le : α → α → Bool)
    (htrans : ∀ a b c, le a b = true → le b c = true → le a c = true)
    (htot : ∀ a b, le a b = true ∨ le b a = true) (l : List α) :
    (pySorted le l).Pairwise (fun a b => le a b = true) := by
  suffices h : ∀ (l acc : List α), acc.Pairwise (fun a b => le a b = true) →
      (l.foldl (fun acc x => insSorted le x acc)
        acc).Pairwise (fun a b => le a b = true) from h l [] (by simp)
  intro l
  induction l with
  | nil => intro acc h; exact h
  | cons x t ih =>
    intro acc h
    rw [List.foldl_cons]
    exact ih _ (insSorted_pairwise le htrans htot x h)

theorem strLtB_of_leB_ne {a b : Str} (h1 : strLeB a b = true) (h2 : a ≠ b) :
    strLtB a b = true := by
  simp only [strLeB, Bool.not_eq_true'] at h1
  cases hab : strLtB a b with
  | true => rfl
  | false => exact absurd (strLtB_connex hab h1) h2

theorem sorted_strict_eq_of_mem_iff : ∀ {l₁ l₂ : List Str},
    l₁.Pairwise (fun a b => strLtB a b = true) →
    l₂.Pairwise (fun a b => strLtB a b = true) →
    (∀ x, x ∈ l₁ ↔ x ∈ l₂) → l₁ = l₂ := by
  intro l₁
  induction l₁ with
  | nil =>
    intro l₂ _ _ hmem
    cases l₂ with
    | nil => rfl
    | cons y t => exact absurd ((hmem y).mpr (by simp)) (by simp)
  | cons x t ih =>
    intro l₂ h1 h2 hmem
    cases l₂ with
    | nil => exact absurd ((hmem x).mp (by simp)) (by simp)
    | cons y t₂ =>
      rcases List.pairwise_cons.mp h1 with ⟨hx, ht⟩
      rcases List.pairwise_cons.mp h2 with ⟨hy, ht₂⟩
      have hxy : x = y := by
        by_contra hne
        rcases List.mem_cons.mp ((hmem x).mp (by simp)) with h' | h'
        · exact hne h'
        · rcases List.mem_cons.mp ((hmem y).mpr (by simp)) with h'' | h''
          · exact hne h''.symm
          · have l1 := hy x h'
            have l2 := hx y h''
            rw [strLtB_asymm l1] at l2
            exact absurd l2 (by simp)
      subst hxy
      have hmem' : ∀ z, z ∈ t ↔ z ∈ t₂ := by
        intro z
        constructor
        · intro hz
          have hzx : x ≠ z := by
            intro hzx
            rw [← hzx] at hz
            have := hx x hz
            rw [strLtB_irrefl] at this
            exact absurd this (by simp)
          rcases List.mem_cons.mp ((hmem z).mp (by simp [hz])) with h' | h'
          · exact absurd h'.symm hzx
          · exact h'
        · intro hz
          have hzx : x ≠ z := by
            intro hzx
            rw [← hzx] at hz
            have := hy x hz
            rw [strLtB_irrefl] at this
            exact absurd this (by simp)
          rcases List.mem_cons.mp ((hmem z).mpr (by simp [hz])) with h' | h'
          · exact absurd h'.symm hzx
          · exact h'
      rw [ih ht ht₂ hmem']

/-! C10: invariants of the loaded store. -/

/-- A CSV row passes all three checks of the loader: timestamp present,
at least 8 characters, values valid. -/
def rowOk (r : MetricRecord) : Bool :=
  !r.timestamp.isEmpty && !decide (r.timestamp.length < 8) &&
    is_valid_data r.committed r.needed

/-- The record the loader builds from a kept CSV row: the date (both as key
and as field) is regenerated from the timestamp. -/
def rebuildRow (r : MetricRecord) : MetricRecord :=
  ⟨formatDate r.timestamp, r.timestamp, r.committed, r.needed, r.url⟩

theorem loadRow_not_ok {acc : Dict} {row : MetricRecord} (h : rowOk row = false) :
    loadRow acc row = acc := by
  unfold loadRow
  split_ifs with h1 h2 h3
  · rfl
  · rfl
  · exfalso
    have e1 : row.timestamp.isEmpty = false := by
      cases hx : row.timestamp.isEmpty with
      | false => rfl
      | true => exact absurd hx h1
    unfold rowOk at h
    rw [e1, h3, decide_eq_false h2] at h
    simp at h
  · rfl

theorem loadRow_ok {acc : Dict} {row : MetricRecord} (h : rowOk row = true) :
    loadRow acc row = dictInsert acc (formatDate row.timestamp) (rebuildRow row) := by
  unfold rowOk at h
  rw [Bool.and_eq_true, Bool.and_eq_true] at h
  obtain ⟨⟨he, hl⟩, hv⟩ := h
  rw [Bool.not_eq_true'] at he
  rw [Bool.not_eq_true'] at hl
  unfold loadRow
  rw [if_neg (by simp [he]), if_neg (of_decide_eq_false hl), if_pos hv]
  rfl

/-- The loader's surviving contributions among a row list for date key `d`,
in order. -/
def loadMatches (rows : List MetricRecord) (d : Str) : List MetricRecord :=
  rows.filterMap (fun r =>
    if rowOk r && decide (formatDate r.timestamp = d) then some (rebuildRow r)
    else none)

theorem getLast?_cons_or (x : α) (l : List α) :
    (x :: l).getLast? = l.getLast?.or (some x) := by
  cases l with
  | nil => rfl
  | cons y t =>
    rw [List.getLast?_cons_cons, List.getLast?_cons, Option.or_some]

theorem getLast?_mem : ∀ {l : List α} {x : α}, l.getLast? = some x → x ∈ l := by
  intro l
  induction l with
  | nil => intro x h; exact absurd h (by simp)
  | cons y t ih =>
    intro x h
    rw [getLast?_cons_or] at h
    cases ht : t.getLast? with
    | none => rw [ht, Option.none_or] at h; simp at h; rw [h]; simp
    | some z =>
      rw [ht, Option.or_some] at h
      simp only [Option.some_inj] at h
      subst h
      exact List.mem_cons_of_mem y (ih ht)

theorem load_find_char : ∀ (rows : List MetricRecord) (acc : Dict) (d : Str),
    dictFind (rows.foldl loadRow acc) d =
      ((loadMatches rows d).getLast?).or (dictFind acc d) := by
  intro rows
  induction rows with
  | nil =>
    intro acc d
    simp [loadMatches, Option.none_or]
  | cons r t ih =>
    intro acc d
    rw [List.foldl_cons]
    cases hok : rowOk r with
    | false =>
      rw [loadRow_not_ok hok]
      have hm : loadMatches (r :: t) d = loadMatches t d := by
        unfold loadMatches
        rw [List.filterMap_cons]
        simp [hok]
      rw [hm, ih]
    | true =>
      rw [loadRow_ok hok]
      by_cases hd : formatDate r.timestamp = d
      · have hm : loadMatches (r :: t) d = rebuildRow r :: loadMatches t d := by
          unfold loadMatches
          rw [List.filterMap_cons]
          simp [hok, hd]
        rw [hm, ih, getLast?_cons_or, hd, dictFind_insert_self, Option.or_assoc,
          Option.or_some]
      · have hm : loadMatches (r :: t) d = loadMatches t d := by
          unfold loadMatches
          rw [List.filterMap_cons]
          simp [hok, hd]
        rw [hm, ih, dictFind_insert_ne _ _ (Ne.symm hd)]

theorem load_existing_find (rows : List MetricRecord) (d : Str) :
    dictFind (load_existing_data rows) d = (loadMatches rows d).getLast? := by
  unfold load_existing_data
  rw [load_find_char]
  simp [dictFind, Option.or_none]

theorem load_entry_props (rows : List MetricRecord) :
    ∀ (d : Str) (r : MetricRecord),
      dictFind (load_existing_data rows) d = some r →
      d = formatDate r.timestamp ∧ r.date = d ∧ 8 ≤ r.timestamp.length ∧
        is_valid_data r.committed r.needed = true := by
  · intro d r h
    rw [load_existing_find] at h
    have hr := getLast?_mem h
    obtain ⟨row, hrow, hsome⟩ := List.mem_filterMap.mp hr
    by_cases hc : (rowOk row && decide (formatDate row.timestamp = d)) = true
    · rw [if_pos hc] at hsome
      rw [Bool.and_eq_true] at hc
      obtain ⟨hok, hfd⟩ := hc
      have hfd' : formatDate row.timestamp = d := of_decide_eq_true hfd
      have hrr : rebuildRow row = r := Option.some_inj.mp hsome
      unfold rowOk at hok
      rw [Bool.and_eq_true, Bool.and_eq_true] at hok
      obtain ⟨⟨-, hl⟩, hv⟩ := hok
      rw [Bool.not_eq_true'] at hl
      have hlen : 8 ≤ row.timestamp.length :=
        Nat.le_of_not_lt (of_decide_eq_false hl)
      subst hrr
      exact ⟨hfd'.symm, hfd', hlen, hv⟩
    · rw [if_neg hc] at hsome
      exact absurd hsome (by simp)

theorem load_filter_rowOk (rows : List MetricRecord) :
    load_existing_data (rows.filter rowOk) = load_existing_data rows := by
  · unfold load_existing_data
    suffices h : ∀ (l : List MetricRecord) (acc : Dict),
        (l.filter rowOk).foldl loadRow acc = l.foldl loadRow acc from h rows []
    intro l
    induction l with
    | nil => intro acc; rfl
    | cons r t ih =>
      intro acc
      cases hok : rowOk r with
      | true =>
        rw [List.filter_cons_of_pos hok, List.foldl_cons, List.foldl_cons, ih]
      | false =>
        rw [List.filter_cons_of_neg (by simp [hok]), List.foldl_cons,
          loadRow_not_ok hok, ih]

/-- C10: every entry of the loaded store has its key equal to the date
regenerated from the first 8 characters of its timestamp (which is at least 8
characters long), its stored date field rewritten to that key, and valid
values; rows failing the timestamp or validity checks contribute nothing. -/
theorem loaded_store_invariant (rows : List MetricRecord) :
    (∀ (d : Str) (r : MetricRecord),
      dictFind (load_existing_data rows) d = some r →
      d = formatDate r.timestamp ∧ r.date = d ∧ 8 ≤ r.timestamp.length ∧
        is_valid_data r.committed r.needed = true) ∧
    load_existing_data (rows.filter rowOk) = load_existing_data rows :=
  ⟨load_entry_props rows, load_filter_rowOk rows⟩

/-- Witness for C10: a loaded entry of a concrete one-row file satisfies the
invariant. -/
theorem loaded_store_invariant_witness :
    str "2024-11-01" =
      formatDate (str "20241101123000") ∧
    (⟨str "2024-11-01", str "20241101123000", str "42", str "10999958",
      str "u"⟩ : MetricRecord).date = str "2024-11-01" ∧
    8 ≤ (str "20241101123000").length ∧
    is_valid_data (str "42") (str "10999958") = true :=
  (loaded_store_invariant
    [⟨str "2024-11-01", str "20241101123000", str "42", str "10999958", str "u"⟩]).1
    (str "2024-11-01")
    ⟨str "2024-11-01", str "20241101123000", str "42", str "10999958", str "u"⟩
    (by decide)

/-! C5: the persisted output is one header row plus one data row per date,
sorted ascending with no duplicates, whatever the insertion order. -/

/-- A store built by merging records in some insertion order
(`all_results[record['date']] = record`). -/
def buildStore (inserts : List MetricRecord) : Dict :=
  inserts.foldl (fun m r => dictInsert m r.date r) []

theorem buildStore_nodup_keys (l : List MetricRecord) :
    ((buildStore l).map (·.1)).Nodup := by
  unfold buildStore
  suffices h : ∀ (t : List MetricRecord) (acc : Dict), (acc.map (·.1)).Nodup →
      ((t.foldl (fun m r => dictInsert m r.date r) acc).map (·.1)).Nodup from
    h l [] (by simp)
  intro t
  induction t with
  | nil => intro acc h; exact h
  | cons r t ih =>
    intro acc h
    rw [List.foldl_cons]
    exact ih _ (nodup_keys_insert h)

theorem buildStore_entry {l : List MetricRecord} {d : Str} {r : MetricRecord}
    (h : dictFind (buildStore l) d = some r) : r.date = d ∧ r ∈ l := by
  unfold buildStore at h
  suffices haux : ∀ (t : List MetricRecord) (acc : Dict),
      (∀ (d' : Str) (r' : MetricRecord), dictFind acc d' = some r' →
        r'.date = d' ∧ r' ∈ l) →
      (∀ r' ∈ t, r' ∈ l) →
      ∀ (d' : Str) (r' : MetricRecord),
        dictFind (t.foldl (fun m r => dictInsert m r.date r) acc) d' = some r' →
        r'.date = d' ∧ r' ∈ l by
    exact haux l [] (fun d' r' h' => absurd h' (by simp [dictFind])) (fun _ h' => h') d r h
  intro t
  induction t with
  | nil => intro acc hacc _ d' r' h'; exact hacc d' r' h'
  | cons x t ih =>
    intro acc hacc ht d' r' h'
    rw [List.foldl_cons] at h'
    refine ih _ ?_ (fun r'' h'' => ht r'' (List.mem_cons_of_mem x h'')) d' r' h'
    intro d'' r'' h''
    rcases dictFind_insert_cases h'' with ⟨hd, hr⟩ | hfound
    · subst hd
      rw [hr]
      exact ⟨rfl, ht x (by simp)⟩
    · exact hacc d'' r'' hfound

theorem buildStore_mem_keys (l : List MetricRecord) (d : Str) :
    d ∈ (buildStore l).map (·.1) ↔ d ∈ l.map (·.date) := by
  unfold buildStore
  suffices h : ∀ (t : List MetricRecord) (acc : Dict) (d : Str),
      d ∈ ((t.foldl (fun m r => dictInsert m r.date r) acc).map (·.1)) ↔
      d ∈ acc.map (·.1) ∨ d ∈ t.map (·.date) by
    rw [h l [] d]
    simp only [List.map_nil, List.not_mem_nil, false_or]
  intro t
  induction t with
  | nil => intro acc d; simp only [List.foldl_nil, List.map_nil,
      List.not_mem_nil, or_false]
  | cons x t ih =>
    intro acc d
    rw [List.foldl_cons, ih, mem_keys_insert]
    simp only [List.map_cons, List.mem_cons]
    tauto

theorem sortedDates_pairwise (m : Dict) (h : (m.map (·.1)).Nodup) :
    (sortedDates m).Pairwise (fun a b => strLtB a b = true) := by
  have hp := pySorted_pairwise strLeB
    (fun a b c h1 h2 => strLeB_trans h1 h2) strLeB_total (m.map (·.1))
  have hperm := pySorted_perm strLeB (m.map (·.1))
  have hnd : (sortedDates m).Nodup := hperm.nodup_iff.mpr h
  unfold sortedDates
  exact (hp.and hnd).imp (fun hx => strLtB_of_leB_ne hx.1 hx.2)

theorem mem_sortedDates (m : Dict) (d : Str) :
    d ∈ sortedDates m ↔ d ∈ m.map (·.1) :=
  (pySorted_perm strLeB (m.map (·.1))).mem_iff

theorem mem_persistRows_iff (m : Dict)
    (hinv : ∀ (d : Str) (r : MetricRecord), dictFind m d = some r → r.date = d)
    (r : MetricRecord) :
    r ∈ persistRows m ↔ dictFind m r.date = some r := by
  unfold persistRows
  rw [List.mem_filterMap]
  constructor
  · rintro ⟨d, _, hfind⟩
    rw [hinv d r hfind]
    exact hfind
  · intro h
    refine ⟨r.date, ?_, h⟩
    rw [mem_sortedDates]
    exact (dictFind_isSome_iff m r.date).mp (by rw [h]; rfl)

theorem persistRows_pairwise (m : Dict) (hnd : (m.map (·.1)).Nodup)
    (hinv : ∀ (d : Str) (r : MetricRecord), dictFind m d = some r → r.date = d) :
    (persistRows m).Pairwise (fun a b => strLtB a.date b.date = true) := by
  unfold persistRows
  refine List.Pairwise.filterMap (fun d => dictFind m d) ?_
    (sortedDates_pairwise m hnd)
  intro a b hab x hx y hy
  rw [hinv a x (Option.mem_def.mp hx), hinv b y (Option.mem_def.mp hy)]
  exact hab

/-- C5: sorted persist — for every insertion order of merged records, the
persisted file is one header row followed by exactly one data row per
CanonicalDate (exactly the dates inserted), sorted strictly ascending by date;
inserting dates 2024-11-05, 2024-11-01, 2024-11-03 persists them in the order
2024-11-01, 2024-11-03, 2024-11-05. -/
theorem persist_sorted (inserts : List MetricRecord) :
    persistFile (buildStore inserts) =
      headerRow :: (persistRows (buildStore inserts)).map recordCells ∧
    (persistRows (buildStore inserts)).Pairwise
      (fun a b => strLtB a.date b.date = true) ∧
    (∀ d : Str, (∃ r ∈ persistRows (buildStore inserts), r.date = d) ↔
      d ∈ inserts.map (·.date)) ∧
    (persistRows (buildStore
      [⟨str "2024-11-05", str "20241105000000", str "1", str "2", []⟩,
       ⟨str "2024-11-01", str "20241101000000", str "3", str "4", []⟩,
       ⟨str "2024-11-03", str "20241103000000", str "5", str "6", []⟩])).map
        (·.date) =
      [str "2024-11-01", str "2024-11-03", str "2024-11-05"] := by
  have hinv : ∀ (d : Str) (r : MetricRecord),
      dictFind (buildStore inserts) d = some r → r.date = d :=
    fun d r h => (buildStore_entry h).1
  refine ⟨rfl, persistRows_pairwise _ (buildStore_nodup_keys inserts) hinv, ?_, by decide⟩
  intro d
  constructor
  · rintro ⟨r, hr, hrd⟩
    have hfind := (mem_persistRows_iff _ hinv r).mp hr
    have : r.date ∈ (buildStore inserts).map (·.1) :=
      (dictFind_isSome_iff _ _).mp (by rw [hfind]; rfl)
    rw [hrd, buildStore_mem_keys] at this
    exact this
  · intro hd
    have hk : d ∈ (buildStore inserts).map (·.1) :=
      (buildStore_mem_keys inserts d).mpr hd
    have hs := (dictFind_isSome_iff (buildStore inserts) d).mpr hk
    cases hf : dictFind (buildStore inserts) d with
    | none => rw [hf] at hs; exact absurd hs (by simp)
    | some r =>
      have hrd : r.date = d := hinv d r hf
      refine ⟨r, (mem_persistRows_iff _ hinv r).mpr ?_, hrd⟩
      rw [hrd]
      exact hf

/-! The harvest loop of scrape_strike_data_all.py: a closed characterization
of the final store and of the per-candidate classifications. -/

theorem scrape_snapshot_fields {fetchData : Str → Str → Option (Str × Str)}
    {ts url : Str} {r : MetricRecord}
    (h : scrape_snapshot fetchData ts url = some r) :
    r.date = formatDate ts ∧ r.timestamp = ts := by
  unfold scrape_snapshot at h
  cases hf : fetchData ts url with
  | none => rw [hf] at h; exact absurd h (by simp)
  | some cn =>
    rw [hf] at h
    have h' : (if (cn.1.isEmpty || cn.2.isEmpty) = true then none
        else some (⟨formatDate ts, ts, cn.1, cn.2,
          waybackUrl ts url⟩ : MetricRecord)) = some r := h
    by_cases hcn : (cn.1.isEmpty || cn.2.isEmpty) = true
    · rw [if_pos hcn] at h'
      exact absurd h' (by simp)
    · rw [if_neg hcn] at h'
      rw [← Option.some_inj.mp h']
      exact ⟨rfl, rfl⟩

theorem harvestStep_skip {fetchData : Str → Str → Option (Str × Str)}
    {existing : Dict} {st : Dict × List CandidateClass} {cand : Str × Str}
    (h : (dictFind existing (formatDate cand.1)).isSome = true) :
    harvestStep fetchData existing st cand =
      (st.1, st.2 ++ [CandidateClass.skippedExisting]) := by
  unfold harvestStep
  rw [if_pos h]

theorem harvestStep_extract {fetchData : Str → Str → Option (Str × Str)}
    {existing : Dict} {st : Dict × List CandidateClass} {cand : Str × Str}
    {r : MetricRecord}
    (h : (dictFind existing (formatDate cand.1)).isSome = false)
    (hs : scrape_snapshot fetchData cand.1 cand.2 = some r) :
    harvestStep fetchData existing st cand =
      (dictInsert st.1 r.date r, st.2 ++ [CandidateClass.extracted]) := by
  unfold harvestStep
  rw [if_neg (by simp [h]), hs]

theorem harvestStep_fail {fetchData : Str → Str → Option (Str × Str)}
    {existing : Dict} {st : Dict × List CandidateClass} {cand : Str × Str}
    (h : (dictFind existing (formatDate cand.1)).isSome = false)
    (hs : scrape_snapshot fetchData cand.1 cand.2 = none) :
    harvestStep fetchData existing st cand =
      (st.1, st.2 ++ [CandidateClass.failed]) := by
  unfold harvestStep
  rw [if_neg (by simp [h]), hs]

/-- The last successfully scraped record among the candidates whose timestamp
maps to date `d`; `allowed` is false when the date is skipped as existing. -/
def newLast (fetchData : Str → Str → Option (Str × Str))
    (snapshots : List (Str × Str)) (d : Str) (allowed : Bool) :
    Option MetricRecord :=
  (snapshots.filterMap (fun c =>
    if allowed && decide (formatDate c.1 = d) then
      scrape_snapshot fetchData c.1 c.2
    else none)).getLast?

theorem newLast_false (fetchData : Str → Str → Option (Str × Str))
    (snaps : List (Str × Str)) (d : Str) :
    newLast fetchData snaps d false = none := by
  unfold newLast
  have h : snaps.filterMap (fun c =>
      if false && decide (formatDate c.1 = d) then
        scrape_snapshot fetchData c.1 c.2
      else none) = [] := by
    induction snaps with
    | nil => rfl
    | cons c t ih => rw [List.filterMap_cons]; simp [ih]
  rw [h]
  rfl

/-- The terminal classification of one candidate, as a function of the
initially loaded store. -/
def classOf (fetchData : Str → Str → Option (Str × Str)) (existing : Dict)
    (c : Str × Str) : CandidateClass :=
  if (dictFind existing (formatDate c.1)).isSome then
    CandidateClass.skippedExisting
  else
    match scrape_snapshot fetchData c.1 c.2 with
    | some _ => CandidateClass.extracted
    | none => CandidateClass.failed

theorem harvest_find_char (fetchData : Str → Str → Option (Str × Str))
    (existing : Dict) :
    ∀ (snaps : List (Str × Str)) (acc : Dict) (cls : List CandidateClass)
      (d : Str),
    dictFind ((snaps.foldl (harvestStep fetchData existing) (acc, cls)).1) d =
      (newLast fetchData snaps d (dictFind existing d).isNone).or
        (dictFind acc d) := by
  intro snaps
  induction snaps with
  | nil =>
    intro acc cls d
    simp [newLast, Option.none_or]
  | cons c rest ih =>
    intro acc cls d
    rw [List.foldl_cons]
    by_cases hskip : (dictFind existing (formatDate c.1)).isSome = true
    · rw [harvestStep_skip hskip, ih]
      congr 1
      unfold newLast
      rw [List.filterMap_cons]
      by_cases hd : formatDate c.1 = d
      · have hall : (dictFind existing d).isNone = false := by
          rw [← hd]
          cases hx : dictFind existing (formatDate c.1) with
          | none => rw [hx] at hskip; exact absurd hskip (by simp)
          | some _ => rfl
        simp [hall]
      · simp [hd]
    · have hskipf : (dictFind existing (formatDate c.1)).isSome = false := by
        cases hx : (dictFind existing (formatDate c.1)).isSome with
        | false => rfl
        | true => exact absurd hx hskip
      cases hscr : scrape_snapshot fetchData c.1 c.2 with
      | some r =>
        rw [harvestStep_extract hskipf hscr, ih]
        obtain ⟨hrd, hrts⟩ := scrape_snapshot_fields hscr
        by_cases hd : formatDate c.1 = d
        · have hallow : (dictFind existing d).isNone = true := by
            rw [← hd]
            cases hx : dictFind existing (formatDate c.1) with
            | none => rfl
            | some _ => rw [hx] at hskipf; exact absurd hskipf (by simp)
          have hcond : ((dictFind existing d).isNone &&
              decide (formatDate c.1 = d)) = true := by
            rw [hallow, hd]
            simp
          have hm : List.filterMap (fun c =>
              if (dictFind existing d).isNone && decide (formatDate c.1 = d) then
                scrape_snapshot fetchData c.1 c.2
              else none) (c :: rest) =
              r :: List.filterMap (fun c =>
                if (dictFind existing d).isNone && decide (formatDate c.1 = d) then
                  scrape_snapshot fetchData c.1 c.2
                else none) rest := by
            rw [List.filterMap_cons, if_pos hcond, hscr]
          have hdin : dictFind (dictInsert acc r.date r) d = some r := by
            rw [← hd, ← hrd]
            exact dictFind_insert_self acc r.date r
          unfold newLast
          rw [hm, getLast?_cons_or, hdin, Option.or_assoc, Option.or_some]
        · have hm : List.filterMap (fun c =>
              if (dictFind existing d).isNone && decide (formatDate c.1 = d) then
                scrape_snapshot fetchData c.1 c.2
              else none) (c :: rest) =
              List.filterMap (fun c =>
                if (dictFind existing d).isNone && decide (formatDate c.1 = d) then
                  scrape_snapshot fetchData c.1 c.2
                else none) rest := by
            rw [List.filterMap_cons]
            simp [hd]
          have hdne : d ≠ r.date := by
            rw [hrd]
            exact Ne.symm hd
          unfold newLast
          rw [hm, dictFind_insert_ne acc r hdne]
      | none =>
        rw [harvestStep_fail hskipf hscr, ih]
        congr 1
        unfold newLast
        rw [List.filterMap_cons]
        by_cases hd : formatDate c.1 = d
        · simp [hscr]
        · simp [hd]

theorem harvest_classes (fetchData : Str → Str → Option (Str × Str))
    (existing : Dict) :
    ∀ (snaps : List (Str × Str)) (acc : Dict) (cls : List CandidateClass),
    (snaps.foldl (harvestStep fetchData existing) (acc, cls)).2 =
      cls ++ snaps.map (classOf fetchData existing) := by
  intro snaps
  induction snaps with
  | nil => intro acc cls; simp
  | cons c rest ih =>
    intro acc cls
    rw [List.foldl_cons]
    by_cases hskip : (dictFind existing (formatDate c.1)).isSome = true
    · rw [harvestStep_skip hskip, ih]
      have hcl : classOf fetchData existing c = CandidateClass.skippedExisting := by
        unfold classOf
        rw [if_pos hskip]
      rw [List.map_cons, hcl]
      simp
    · have hskipf : (dictFind existing (formatDate c.1)).isSome = false := by
        cases hx : (dictFind existing (formatDate c.1)).isSome with
        | false => rfl
        | true => exact absurd hx hskip
      cases hscr : scrape_snapshot fetchData c.1 c.2 with
      | some r =>
        rw [harvestStep_extract hskipf hscr, ih]
        have hcl : classOf fetchData existing c = CandidateClass.extracted := by
          unfold classOf
          rw [if_neg (by simp [hskipf]), hscr]
        rw [List.map_cons, hcl]
        simp
      | none =>
        rw [harvestStep_fail hskipf hscr, ih]
        have hcl : classOf fetchData existing c = CandidateClass.failed := by
          unfold classOf
          rw [if_neg (by simp [hskipf]), hscr]
        rw [List.map_cons, hcl]
        simp

/-! C1: no-overwrite holds for records already in the store, but within one
run the last — not the first — valid snapshot of a date wins, because the
skip check consults only the initially loaded data. -/

/-- A fetcher under which two same-date snapshots extract different values. -/
def cfetchC1 : Str → Str → Option (Str × Str) := fun ts _ =>
  if ts = str "20250101000000" then some (str "1111111", str "9888889")
  else some (str "2222222", str "8777778")

/-- Counterexample to C1 as stated: with an empty store and two snapshots of
the same date, the first of which extracts a valid reading, the persisted
record for that date is the one from the second snapshot — the last valid
candidate wins, not the first. -/
theorem first_valid_wins_counterexample :
    scrape_snapshot cfetchC1 (str "20250101000000") (str "u1") =
      some ⟨str "2025-01-01", str "20250101000000", str "1111111",
        str "9888889", waybackUrl (str "20250101000000") (str "u1")⟩ ∧
    is_valid_data (str "1111111") (str "9888889") = true ∧
    (harvest_main cfetchC1 none
      [(str "20250101000000", str "u1"), (str "20250101120000", str "u2")]).rows =
      [⟨str "2025-01-01", str "20250101120000", str "2222222", str "8777778",
        waybackUrl (str "20250101120000") (str "u2")⟩] ∧
    (⟨str "2025-01-01", str "20250101120000", str "2222222", str "8777778",
        waybackUrl (str "20250101120000") (str "u2")⟩ : MetricRecord) ≠
      ⟨str "2025-01-01", str "20250101000000", str "1111111", str "9888889",
        waybackUrl (str "20250101000000") (str "u1")⟩ := by
  exact ⟨by decide, by decide, by decide, by decide⟩

/-- C1 (amended): a store record for date D is never altered by processing
further snapshots mapping to D — the candidate is skipped before fetching —
and for a date absent from the loaded store, the record retained is the last
successfully scraped candidate for that date (`newLast`), not the first. -/
theorem no_overwrite_amended :
    (∀ (fetchData : Str → Str → Option (Str × Str)) (existing : Dict)
       (snaps : List (Str × Str)) (d : Str) (r : MetricRecord),
      dictFind existing d = some r →
      dictFind ((harvestLoop fetchData existing snaps).1) d = some r) ∧
    (∀ (fetchData : Str → Str → Option (Str × Str)) (existing : Dict)
       (snaps : List (Str × Str)) (d : Str),
      dictFind existing d = none →
      dictFind ((harvestLoop fetchData existing snaps).1) d =
        newLast fetchData snaps d true) := by
  constructor
  · intro fetchData existing snaps d r h
    unfold harvestLoop
    rw [harvest_find_char, h]
    simp [newLast_false]
  · intro fetchData existing snaps d h
    unfold harvestLoop
    rw [harvest_find_char, h]
    simp [Option.or_none]

/-- Witness for C1 (amended): a concrete pre-existing record survives a run
that fetches a same-date snapshot with different values. -/
theorem no_overwrite_amended_witness :
    dictFind ((harvestLoop cfetchC1
      [(str "2025-01-01",
        ⟨str "2025-01-01", str "20250101050000", str "7", str "10999993", []⟩)]
      [(str "20250101000000", str "u1")]).1) (str "2025-01-01") =
    some ⟨str "2025-01-01", str "20250101050000", str "7", str "10999993", []⟩ :=
  no_overwrite_amended.1 cfetchC1 _ _ _ _ (by decide)

/-! C2: idempotence of the harvest run. -/

/-- Every entry of a store is keyed by the date regenerated from its own
timestamp, which also matches its date field. -/
def keyInv (m : Dict) : Prop :=
  ∀ (d : Str) (r : MetricRecord), dictFind m d = some r →
    d = formatDate r.timestamp ∧ r.date = d

theorem load_keyInv (rows : List MetricRecord) :
    keyInv (load_existing_data rows) := by
  intro d r h
  obtain ⟨h1, h2, -, -⟩ := load_entry_props rows d r h
  exact ⟨h1, h2⟩

theorem load_entry_rowOk {rows : List MetricRecord} {d : Str} {r : MetricRecord}
    (h : dictFind (load_existing_data rows) d = some r) : rowOk r = true := by
  obtain ⟨-, -, hlen, hv⟩ := load_entry_props rows d r h
  unfold rowOk
  have hne : r.timestamp.isEmpty = false := by
    cases ht : r.timestamp with
    | nil => rw [ht] at hlen; simp at hlen
    | cons _ _ => rfl
  rw [hne, hv, decide_eq_false (Nat.not_lt.mpr hlen)]
  rfl

theorem load_file_keyInv (file : Option (List MetricRecord)) :
    keyInv (load_existing_file file) := by
  cases file with
  | none => intro d r h; exact Option.noConfusion h
  | some rows => exact load_keyInv rows

theorem load_file_entry_rowOk {file : Option (List MetricRecord)} {d : Str}
    {r : MetricRecord} (h : dictFind (load_existing_file file) d = some r) :
    rowOk r = true := by
  cases file with
  | none => exact Option.noConfusion h
  | some rows => exact load_entry_rowOk h

theorem load_nodup_keys (rows : List MetricRecord) :
    ((load_existing_data rows).map (·.1)).Nodup := by
  unfold load_existing_data
  suffices h : ∀ (l : List MetricRecord) (acc : Dict), (acc.map (·.1)).Nodup →
      ((l.foldl loadRow acc).map (·.1)).Nodup from h rows [] (by simp)
  intro l
  induction l with
  | nil => intro acc h; exact h
  | cons r t ih =>
    intro acc h
    rw [List.foldl_cons]
    cases hok : rowOk r with
    | false => rw [loadRow_not_ok hok]; exact ih acc h
    | true => rw [loadRow_ok hok]; exact ih _ (nodup_keys_insert h)

theorem load_file_nodup_keys (file : Option (List MetricRecord)) :
    ((load_existing_file file).map (·.1)).Nodup := by
  cases file with
  | none => simp [load_existing_file]
  | some rows => exact load_nodup_keys rows

theorem harvestLoop_nodup_keys (fetchData : Str → Str → Option (Str × Str))
    (existing : Dict) (snaps : List (Str × Str))
    (h : (existing.map (·.1)).Nodup) :
    (((harvestLoop fetchData existing snaps).1).map (·.1)).Nodup := by
  unfold harvestLoop
  suffices haux : ∀ (l : List (Str × Str)) (acc : Dict) (cls : List CandidateClass),
      (acc.map (·.1)).Nodup →
      (((l.foldl (harvestStep fetchData existing) (acc, cls)).1).map (·.1)).Nodup
    from haux snaps existing [] h
  intro l
  induction l with
  | nil => intro acc cls hacc; exact hacc
  | cons c rest ih =>
    intro acc cls hacc
    rw [List.foldl_cons]
    by_cases hskip : (dictFind existing (formatDate c.1)).isSome = true
    · rw [harvestStep_skip hskip]; exact ih acc _ hacc
    · have hskipf : (dictFind existing (formatDate c.1)).isSome = false := by
        cases hx : (dictFind existing (formatDate c.1)).isSome with
        | false => rfl
        | true => exact absurd hx hskip
      cases hscr : scrape_snapshot fetchData c.1 c.2 with
      | some r => rw [harvestStep_extract hskipf hscr]
                  exact ih _ _ (nodup_keys_insert hacc)
      | none => rw [harvestStep_fail hskipf hscr]; exact ih acc _ hacc

theorem harvestLoop_keyInv (fetchData : Str → Str → Option (Str × Str))
    (existing : Dict) (snaps : List (Str × Str)) (h : keyInv existing) :
    keyInv (harvestLoop fetchData existing snaps).1 := by
  unfold harvestLoop
  suffices haux : ∀ (l : List (Str × Str)) (acc : Dict) (cls : List CandidateClass),
      keyInv acc → keyInv (l.foldl (harvestStep fetchData existing) (acc, cls)).1
    from haux snaps existing [] h
  intro l
  induction l with
  | nil => intro acc cls hacc; exact hacc
  | cons c rest ih =>
    intro acc cls hacc
    rw [List.foldl_cons]
    by_cases hskip : (dictFind existing (formatDate c.1)).isSome = true
    · rw [harvestStep_skip hskip]; exact ih acc _ hacc
    · have hskipf : (dictFind existing (formatDate c.1)).isSome = false := by
        cases hx : (dictFind existing (formatDate c.1)).isSome with
        | false => rfl
        | true => exact absurd hx hskip
      cases hscr : scrape_snapshot fetchData c.1 c.2 with
      | some r =>
        rw [harvestStep_extract hskipf hscr]
        refine ih _ _ ?_
        intro d' r' h'
        rcases dictFind_insert_cases h' with ⟨hd, hr⟩ | hfound
        · obtain ⟨hrd, hrts⟩ := scrape_snapshot_fields hscr
          subst hd
          subst hr
          exact ⟨by rw [hrts, ← hrd], rfl⟩
        · exact hacc d' r' hfound
      | none => rw [harvestStep_fail hskipf hscr]; exact ih acc _ hacc

theorem rebuildRow_eq_self {r : MetricRecord}
    (h : r.date = formatDate r.timestamp) : rebuildRow r = r := by
  cases r with
  | mk d ts c n u =>
    have h' : d = formatDate ts := h
    unfold rebuildRow
    rw [h']

theorem pairwise_mem_imp {R S : α → α → Prop} {l : List α} (h : l.Pairwise R)
    (himp : ∀ a ∈ l, ∀ b ∈ l, R a b → S a b) : l.Pairwise S := by
  induction l with
  | nil => exact List.Pairwise.nil
  | cons x t ih =>
    rcases List.pairwise_cons.mp h with ⟨hx, ht⟩
    rw [List.pairwise_cons]
    constructor
    · intro b hb
      exact himp x (by simp) b (by simp [hb]) (hx b hb)
    · exact ih ht (fun a ha b hb hr =>
        himp a (by simp [ha]) b (by simp [hb]) hr)

theorem filterMap_single {f : α → Option β} : ∀ {l : List α},
    l.Pairwise (fun a b => (f a).isSome = true → (f b).isSome = false) →
    l.filterMap f = [] ∨
      ∃ b, l.filterMap f = [b] ∧ ∃ a ∈ l, f a = some b := by
  intro l
  induction l with
  | nil => intro _; exact Or.inl rfl
  | cons x t ih =>
    intro h
    rcases List.pairwise_cons.mp h with ⟨hx, ht⟩
    rw [List.filterMap_cons]
    cases hfx : f x with
    | none =>
      rcases ih ht with hnil | ⟨b, hb, a, ha, hfa⟩
      · exact Or.inl hnil
      · exact Or.inr ⟨b, hb, a, List.mem_cons_of_mem x ha, hfa⟩
    | some b =>
      have hnone : ∀ y ∈ t, f y = none := by
        intro y hy
        have := hx y hy (by rw [hfx]; rfl)
        cases hfy : f y with
        | none => rfl
        | some z => rw [hfy] at this; exact absurd this (by simp)
      have : t.filterMap f = [] := List.filterMap_eq_nil_iff.mpr hnone
      rw [this]
      exact Or.inr ⟨b, rfl, x, by simp, hfx⟩

/-- Reloading a persisted store: an entry survives exactly when its row passes
the loader's checks, and nothing else appears. -/
theorem reload_find (m : Dict) (hk : keyInv m) (hnd : ((m.map (·.1))).Nodup)
    (d : Str) :
    dictFind (load_existing_data (persistRows m)) d =
      (dictFind m d).bind (fun r => if rowOk r then some r else none) := by
  have hinv' : ∀ (d' : Str) (r : MetricRecord), dictFind m d' = some r →
      r.date = d' := fun d' r h => (hk d' r h).2
  have hdate : ∀ r ∈ persistRows m, r.date = formatDate r.timestamp := by
    intro r hr
    have hfind := (mem_persistRows_iff m hinv' r).mp hr
    exact (hk r.date r hfind).1
  have hsome_date : ∀ r ∈ persistRows m,
      ((if rowOk r && decide (formatDate r.timestamp = d) then
        some (rebuildRow r) else none) : Option MetricRecord).isSome = true →
      r.date = d := by
    intro r hr hs
    by_cases hc : (rowOk r && decide (formatDate r.timestamp = d)) = true
    · rw [Bool.and_eq_true] at hc
      rw [hdate r hr]
      exact of_decide_eq_true hc.2
    · rw [if_neg hc] at hs
      exact absurd hs (by simp)
  have hpair : (persistRows m).Pairwise (fun a b =>
      ((if rowOk a && decide (formatDate a.timestamp = d) then
        some (rebuildRow a) else none) : Option MetricRecord).isSome = true →
      ((if rowOk b && decide (formatDate b.timestamp = d) then
        some (rebuildRow b) else none) : Option MetricRecord).isSome = false) := by
    refine pairwise_mem_imp (persistRows_pairwise m hnd hinv') ?_
    intro a ha b hb hab hsa
    cases hsb : ((if rowOk b && decide (formatDate b.timestamp = d) then
        some (rebuildRow b) else none) : Option MetricRecord).isSome with
    | false => rfl
    | true =>
      have had : a.date = d := hsome_date a ha hsa
      have hbd : b.date = d := hsome_date b hb hsb
      rw [had, hbd, strLtB_irrefl] at hab
      exact absurd hab (by simp)
  rw [load_existing_find]
  unfold loadMatches
  rcases filterMap_single hpair with hnil | ⟨b, hb, a, ha, hfa⟩
  · rw [hnil]
    cases hm : dictFind m d with
    | none => rfl
    | some r =>
      by_cases hro : rowOk r = true
      · exfalso
        have hrd : r.date = d := hinv' d r hm
        have hrmem : r ∈ persistRows m :=
          (mem_persistRows_iff m hinv' r).mpr (by rw [hrd]; exact hm)
        have hfr : (if rowOk r && decide (formatDate r.timestamp = d) then
            some (rebuildRow r) else none) = some (rebuildRow r) := by
          have hfd : formatDate r.timestamp = d := by rw [← (hk d r hm).1]
          rw [if_pos (by simp [hro, hfd])]
        have := List.filterMap_eq_nil_iff.mp hnil r hrmem
        rw [hfr] at this
        exact absurd this (by simp)
      · have hrof : rowOk r = false := by
          cases hx : rowOk r with
          | false => rfl
          | true => exact absurd hx hro
        simp [hrof]
  · rw [hb]
    by_cases hc : (rowOk a && decide (formatDate a.timestamp = d)) = true
    · rw [if_pos hc] at hfa
      rw [Bool.and_eq_true] at hc
      have hadate : a.date = formatDate a.timestamp := hdate a ha
      have had : a.date = d := by rw [hadate]; exact of_decide_eq_true hc.2
      have hma : dictFind m d = some a := by
        rw [← had]
        exact (mem_persistRows_iff m hinv' a).mp ha
      rw [hma]
      have hba : b = a := by
        rw [← Option.some_inj.mp hfa, rebuildRow_eq_self hadate]
      rw [hba]
      simp [hc.1]
    · rw [if_neg hc] at hfa
      exact absurd hfa (by simp)

theorem persistRows_ext {m₁ m₂ : Dict} (h1 : ((m₁.map (·.1))).Nodup)
    (h2 : ((m₂.map (·.1))).Nodup)
    (hf : ∀ d, dictFind m₁ d = dictFind m₂ d) :
    persistRows m₁ = persistRows m₂ := by
  have hkeys : sortedDates m₁ = sortedDates m₂ := by
    apply sorted_strict_eq_of_mem_iff (sortedDates_pairwise m₁ h1)
      (sortedDates_pairwise m₂ h2)
    intro x
    rw [mem_sortedDates, mem_sortedDates, ← dictFind_isSome_iff,
      ← dictFind_isSome_iff, hf]
  unfold persistRows
  rw [hkeys]
  have hfg : (fun d => dictFind m₁ d) = fun d => dictFind m₂ d := funext hf
  rw [hfg]

theorem harvest_main_rows (fetchData : Str → Str → Option (Str × Str))
    (file : Option (List MetricRecord)) (snaps : List (Str × Str)) :
    (harvest_main fetchData file snaps).rows =
      persistRows (harvestLoop fetchData (load_existing_file file) snaps).1 := rfl

theorem harvest_main_classes_def (fetchData : Str → Str → Option (Str × Str))
    (file : Option (List MetricRecord)) (snaps : List (Str × Str)) :
    (harvest_main fetchData file snaps).classes =
      (harvestLoop fetchData (load_existing_file file) snaps).2 := rfl

/-- Rerunning the harvest over a store whose first-run output is reloaded
yields the same mapping, date by date. -/
theorem rerun_find_general (fetchData : Str → Str → Option (Str × Str))
    (e1 : Dict) (hk1 : keyInv e1) (hnd1 : ((e1.map (·.1))).Nodup)
    (hro1 : ∀ (d : Str) (r : MetricRecord), dictFind e1 d = some r →
      rowOk r = true)
    (snaps : List (Str × Str)) (d : Str) :
    dictFind ((harvestLoop fetchData
      (load_existing_data (persistRows (harvestLoop fetchData e1 snaps).1))
      snaps).1) d =
    dictFind ((harvestLoop fetchData e1 snaps).1) d := by
  have hkm : keyInv (harvestLoop fetchData e1 snaps).1 :=
    harvestLoop_keyInv fetchData e1 snaps hk1
  have hndm := harvestLoop_nodup_keys fetchData e1 snaps hnd1
  have he2 := reload_find (harvestLoop fetchData e1 snaps).1 hkm hndm
  have hchar1 : dictFind ((harvestLoop fetchData e1 snaps).1) d =
      (newLast fetchData snaps d (dictFind e1 d).isNone).or (dictFind e1 d) :=
    harvest_find_char fetchData e1 snaps e1 [] d
  have hchar2 : dictFind ((harvestLoop fetchData
      (load_existing_data (persistRows (harvestLoop fetchData e1 snaps).1))
      snaps).1) d =
      (newLast fetchData snaps d
        (dictFind (load_existing_data
          (persistRows (harvestLoop fetchData e1 snaps).1)) d).isNone).or
      (dictFind (load_existing_data
        (persistRows (harvestLoop fetchData e1 snaps).1)) d) :=
    harvest_find_char fetchData _ snaps _ [] d
  cases he1 : dictFind e1 d with
  | some r =>
    have hro := hro1 d r he1
    have hm1d : dictFind (harvestLoop fetchData e1 snaps).1 d = some r := by
      rw [hchar1, he1]
      simp [newLast_false]
    rw [hchar2, he2 d, hm1d]
    simp [hro, newLast_false]
  | none =>
    have hm1d : dictFind (harvestLoop fetchData e1 snaps).1 d =
        newLast fetchData snaps d true := by
      rw [hchar1, he1]
      simp [Option.or_none]
    rw [hchar2, he2 d, hm1d]
    cases hnl : newLast fetchData snaps d true with
    | some r =>
      cases hro : rowOk r with
      | true => simp [hro, newLast_false]
      | false =>
        simp [hro, Option.or_none]
        exact hnl
    | none =>
      simp [Option.or_none]
      exact hnl

/-- Counterexample to C2 as stated: with a single candidate whose extraction
fails in both runs (same backend state), the second run classifies it as
FAILED, re-fetching it, not as SKIPPED_EXISTING — even though the persisted
dataset is unchanged. -/
theorem idempotence_counterexample :
    (harvest_main (fun _ _ => none)
      (some ((harvest_main (fun _ _ => none) (some [])
        [(str "20250101000000", str "u")]).rows))
      [(str "20250101000000", str "u")]).classes = [CandidateClass.failed] ∧
    [CandidateClass.failed] ≠ [CandidateClass.skippedExisting] := by
  exact ⟨by decide, by decide⟩

/-- C2 (amended): running the harvest a second time over the same snapshot
set with the same fetch results persists a dataset identical to the first
run's; the second run's candidate classifications are pointwise determined by
the reloaded store, and every candidate whose date obtained a record passing
the loader's checks in the first run is classified SKIPPED_EXISTING — but
candidates whose first-run extraction failed (or whose record fails the
loader's checks) are re-fetched rather than skipped. -/
theorem idempotence_amended (fetchData : Str → Str → Option (Str × Str))
    (file : Option (List MetricRecord)) (snaps : List (Str × Str)) :
    (harvest_main fetchData
      (some (harvest_main fetchData file snaps).rows) snaps).rows =
      (harvest_main fetchData file snaps).rows ∧
    (harvest_main fetchData
      (some (harvest_main fetchData file snaps).rows) snaps).classes =
      snaps.map (classOf fetchData
        (load_existing_data (harvest_main fetchData file snaps).rows)) ∧
    (∀ c ∈ snaps, ∀ r : MetricRecord,
      dictFind ((harvestLoop fetchData (load_existing_file file) snaps).1)
        (formatDate c.1) = some r →
      rowOk r = true →
      classOf fetchData
        (load_existing_data (harvest_main fetchData file snaps).rows) c =
        CandidateClass.skippedExisting) := by
  have hk1 := load_file_keyInv file
  have hnd1 := load_file_nodup_keys file
  have hro1 : ∀ (d : Str) (r : MetricRecord),
      dictFind (load_existing_file file) d = some r → rowOk r = true :=
    fun _ _ h => load_file_entry_rowOk h
  have hkm : keyInv (harvestLoop fetchData (load_existing_file file) snaps).1 :=
    harvestLoop_keyInv fetchData _ snaps hk1
  have hndm := harvestLoop_nodup_keys fetchData (load_existing_file file) snaps hnd1
  refine ⟨?_, ?_, ?_⟩
  · rw [harvest_main_rows, harvest_main_rows]
    apply persistRows_ext
    · exact harvestLoop_nodup_keys fetchData _ snaps
        (load_nodup_keys (harvest_main fetchData file snaps).rows)
    · exact hndm
    · intro d
      exact rerun_find_general fetchData (load_existing_file file) hk1 hnd1
        hro1 snaps d
  · rw [harvest_main_classes_def]
    unfold harvestLoop
    rw [harvest_classes]
    rw [List.nil_append]
    rfl
  · intro c _ r hm1 hro
    have hcond : (dictFind (load_existing_data
        (harvest_main fetchData file snaps).rows) (formatDate c.1)).isSome =
        true := by
      rw [harvest_main_rows, reload_find _ hkm hndm, hm1]
      simp [hro]
    unfold classOf
    rw [if_pos hcond]

/-- A fetcher that always extracts the same valid reading, for the C2
witness. -/
def cfetchC2 : Str → Str → Option (Str × Str) :=
  fun _ _ => some (str "5", str "10999995")

/-- Witness for C2 (amended): after a successful first run over one snapshot,
the second run classifies that candidate as skipped-existing. -/
theorem idempotence_amended_witness :
    classOf cfetchC2
      (load_existing_data
        (harvest_main cfetchC2 none [(str "20250101000000", str "u")]).rows)
      (str "20250101000000", str "u") = CandidateClass.skippedExisting :=
  (idempotence_amended cfetchC2 none [(str "20250101000000", str "u")]).2.2
    (str "20250101000000", str "u") (by decide)
    ⟨str "2025-01-01", str "20250101000000", str "5", str "10999995",
      waybackUrl (str "20250101000000") (str "u")⟩
    (by decide) (by decide)

/-! C4: the weekly bucket sampler. -/

/-- Lookup in the sampler's bucket dictionary. -/
def wkFind (acc : List ((Nat × Nat) × (Str × Str))) (k : Nat × Nat) :
    Option (Str × Str) :=
  (acc.find? (fun p => decide (p.1 = k))).map (·.2)

theorem wkFind_of_mem_nodup :
    ∀ {res : List ((Nat × Nat) × (Str × Str))} {p : (Nat × Nat) × (Str × Str)},
    (res.map (·.1)).Nodup → p ∈ res → wkFind res p.1 = some p.2 := by
  intro res
  induction res with
  | nil => intro p _ hp; exact absurd hp (by simp)
  | cons q t ih =>
    intro p hnd hp
    rw [List.map_cons, List.nodup_cons] at hnd
    rcases List.mem_cons.mp hp with hpq | hpt
    · rw [hpq]
      unfold wkFind
      rw [List.find?_cons_of_pos _ (by simp)]
      rfl
    · have hne : q.1 ≠ p.1 := by
        intro he
        exact hnd.1 (he ▸ List.mem_map.mpr ⟨p, hpt, rfl⟩)
      unfold wkFind
      rw [List.find?_cons_of_neg _ (by simp [hne])]
      exact ih hnd.2 hpt

theorem sampleLoop_char :
    ∀ (snaps : List (Str × Str)) (acc : List ((Nat × Nat) × (Str × Str))),
    (∀ c ∈ snaps, (year_week c.1).isSome = true) →
    ∃ res, sampleLoop snaps acc = some res ∧
      (∀ k : Nat × Nat, wkFind res k = (wkFind acc k).or
        (snaps.find? (fun c => decide (year_week c.1 = some k)))) ∧
      (∀ p ∈ res, p ∈ acc ∨ (p.2 ∈ snaps ∧ year_week p.2.1 = some p.1)) ∧
      ((acc.map (·.1)).Nodup → (res.map (·.1)).Nodup) := by
  intro snaps
  induction snaps with
  | nil =>
    intro acc _
    refine ⟨acc, rfl, ?_, fun p hp => Or.inl hp, fun h => h⟩
    intro k
    simp
  | cons c rest ih =>
    intro acc h
    obtain ⟨ts, url⟩ := c
    have hk : (year_week ts).isSome = true := h (ts, url) (by simp)
    obtain ⟨k₀, hk₀⟩ := Option.isSome_iff_exists.mp hk
    have hrest : ∀ c ∈ rest, (year_week c.1).isSome = true :=
      fun c hc => h c (List.mem_cons_of_mem _ hc)
    have hstep : sampleLoop ((ts, url) :: rest) acc =
        (if acc.any (fun p => decide (p.1 = k₀)) then sampleLoop rest acc
         else sampleLoop rest (acc ++ [(k₀, (ts, url))])) := by
      show (match year_week ts with
        | none => none
        | some key =>
          if acc.any (fun p => decide (p.1 = key)) then sampleLoop rest acc
          else sampleLoop rest (acc ++ [(key, (ts, url))])) = _
      rw [hk₀]
    cases hmem : acc.any (fun p => decide (p.1 = k₀)) with
    | true =>
      obtain ⟨res, hres, hfind, hent, hnd⟩ := ih acc hrest
      refine ⟨res, by rw [hstep, if_pos hmem]; exact hres, ?_, ?_, hnd⟩
      · intro k
        rw [hfind k]
        by_cases hkk : k = k₀
        · subst hkk
          have hsome : (acc.find? (fun p => decide (p.1 = k))).isSome = true := by
            rw [List.find?_isSome]
            obtain ⟨p, hp, hpk⟩ := List.any_eq_true.mp hmem
            exact ⟨p, hp, hpk⟩
          obtain ⟨q, hq⟩ := Option.isSome_iff_exists.mp hsome
          unfold wkFind
          rw [hq]
          rfl
        · congr 1
          rw [List.find?_cons_of_neg]
          simp only [decide_eq_true_eq]
          rw [hk₀]
          intro he
          exact hkk (Option.some_inj.mp he).symm
      · intro p hp
        rcases hent p hp with hpa | ⟨hps, hpy⟩
        · exact Or.inl hpa
        · exact Or.inr ⟨List.mem_cons_of_mem _ hps, hpy⟩
    | false =>
      obtain ⟨res, hres, hfind, hent, hnd⟩ := ih (acc ++ [(k₀, (ts, url))]) hrest
      refine ⟨res, by rw [hstep, if_neg (by simp [hmem])]; exact hres, ?_, ?_, ?_⟩
      · intro k
        rw [hfind k]
        have happ : wkFind (acc ++ [(k₀, (ts, url))]) k =
            (wkFind acc k).or (wkFind [(k₀, (ts, url))] k) := by
          unfold wkFind
          rw [List.find?_append]
          cases hfa : acc.find? (fun p => decide (p.1 = k)) with
          | some q => rfl
          | none => rfl
        rw [happ]
        by_cases hkk : k = k₀
        · rw [hkk]
          have h1 : wkFind [(k₀, (ts, url))] k₀ = some (ts, url) := by
            unfold wkFind
            rw [List.find?_cons_of_pos _ (by simp)]
            rfl
          have h2 : ((ts, url) :: rest).find?
              (fun c => decide (year_week c.1 = some k₀)) = some (ts, url) := by
            rw [List.find?_cons_of_pos _ (by simp [hk₀])]
          rw [h1, h2, Option.or_assoc, Option.or_some]
        · have h1 : wkFind [(k₀, (ts, url))] k = none := by
            unfold wkFind
            rw [List.find?_cons_of_neg _ (by simp [Ne.symm hkk])]
            rfl
          have h2 : ((ts, url) :: rest).find?
              (fun c => decide (year_week c.1 = some k)) =
              rest.find? (fun c => decide (year_week c.1 = some k)) := by
            rw [List.find?_cons_of_neg]
            simp only [decide_eq_true_eq]
            rw [hk₀]
            intro he
            exact hkk (Option.some_inj.mp he).symm
          rw [h1, h2, Option.or_none]
      · intro p hp
        rcases hent p hp with hpa | ⟨hps, hpy⟩
        · rcases List.mem_append.mp hpa with hpa' | hpa'
          · exact Or.inl hpa'
          · have hpe : p = (k₀, (ts, url)) := by simpa using hpa'
            refine Or.inr ⟨?_, ?_⟩
            · rw [hpe]; simp
            · rw [hpe]; simpa using hk₀
        · exact Or.inr ⟨List.mem_cons_of_mem _ hps, hpy⟩
      · intro hacc
        refine hnd ?_
        rw [List.map_append, List.nodup_append]
        refine ⟨hacc, by simp, ?_⟩
        intro x hx hx2
        simp only [List.map_cons, List.map_nil, List.mem_singleton] at hx2
        rw [hx2] at hx
        have hanyf := List.any_eq_false.mp hmem
        obtain ⟨p, hp, hpk⟩ := List.mem_map.mp hx
        exact (hanyf p hp) (by simp [hpk])

/-- C4: bucket sampler — for every snapshot list whose timestamps all parse,
weekly sampling succeeds and returns, sorted ascending by timestamp, exactly
one pair per distinct (calendar year, ISO week) key: each output element is
the first input element with its key, every input key is represented, and no
two output elements share a key; on the spec's three-snapshot input it keeps
the first and third. -/
theorem bucket_sampler (snaps : List (Str × Str))
    (h : ∀ c ∈ snaps, (year_week c.1).isSome = true) :
    (∃ out, sample_weekly_snapshots snaps = some out ∧
      out.Pairwise (fun a b => strLeB a.1 b.1 = true) ∧
      out.Pairwise (fun a b => year_week a.1 ≠ year_week b.1) ∧
      (∀ c ∈ out, ∃ k : Nat × Nat, year_week c.1 = some k ∧
        snaps.find? (fun c' => decide (year_week c'.1 = some k)) = some c) ∧
      (∀ c ∈ snaps, ∃ c' ∈ out, year_week c'.1 = year_week c.1)) ∧
    sample_weekly_snapshots
      [(str "20241101120000", str "u1"), (str "20241103090000", str "u2"),
       (str "20241110000000", str "u3")] =
      some [(str "20241101120000", str "u1"), (str "20241110000000", str "u3")] := by
  refine ⟨?_, by decide⟩
  obtain ⟨res, hres, hfind, hent, hnd⟩ := sampleLoop_char snaps [] h
  have hnd' : (res.map (·.1)).Nodup := hnd (by simp)
  have hent' : ∀ p ∈ res, p.2 ∈ snaps ∧ year_week p.2.1 = some p.1 := by
    intro p hp
    rcases hent p hp with hpa | h'
    · exact absurd hpa (by simp)
    · exact h'
  have hfind' : ∀ k : Nat × Nat, wkFind res k =
      snaps.find? (fun c => decide (year_week c.1 = some k)) := by
    intro k
    rw [hfind k]
    exact Option.none_or
  have hout : sample_weekly_snapshots snaps =
      some (pySorted (fun a b => strLeB a.1 b.1) (res.map (·.2))) := by
    unfold sample_weekly_snapshots
    rw [hres]
  refine ⟨pySorted (fun a b => strLeB a.1 b.1) (res.map (·.2)), hout, ?_, ?_, ?_, ?_⟩
  · exact pySorted_pairwise (fun a b => strLeB a.1 b.1)
      (fun a b c h1 h2 => strLeB_trans (a := a.1) (b := b.1) (c := c.1) h1 h2)
      (fun a b => strLeB_total a.1 b.1) (res.map (·.2))
  · have hpw_res : res.Pairwise (fun p q => p.1 ≠ q.1) :=
      List.pairwise_map.mp hnd'
    have hpw_vals : (res.map (·.2)).Pairwise
        (fun a b => year_week a.1 ≠ year_week b.1) := by
      rw [List.pairwise_map]
      refine pairwise_mem_imp hpw_res ?_
      intro p hp q hq hne heq
      have h1 := (hent' p hp).2
      have h2 := (hent' q hq).2
      rw [h1, h2] at heq
      exact hne (Option.some_inj.mp heq)
    exact ((pySorted_perm (fun a b => strLeB a.1 b.1)
      (res.map (·.2))).pairwise_iff (fun hxy => Ne.symm hxy)).mpr hpw_vals
  · intro c hc
    have hc' : c ∈ res.map (·.2) :=
      (pySorted_perm (fun a b => strLeB a.1 b.1) (res.map (·.2))).mem_iff.mp hc
    obtain ⟨p, hp, hpc⟩ := List.mem_map.mp hc'
    refine ⟨p.1, ?_, ?_⟩
    · rw [← hpc]
      exact (hent' p hp).2
    · rw [← hfind' p.1, wkFind_of_mem_nodup hnd' hp, hpc]
  · intro c hc
    obtain ⟨k, hk⟩ := Option.isSome_iff_exists.mp (h c hc)
    have hfs : (snaps.find? (fun c' => decide (year_week c'.1 = some k))).isSome
        = true := List.find?_isSome.mpr ⟨c, hc, by simp [hk]⟩
    rw [← hfind' k] at hfs
    unfold wkFind at hfs
    cases hq : res.find? (fun p => decide (p.1 = k)) with
    | none => rw [hq] at hfs; exact absurd hfs (by simp)
    | some q =>
      have hqk : q.1 = k := by simpa using List.find?_some hq
      have hqm : q ∈ res := List.mem_of_find?_eq_some hq
      refine ⟨q.2, ?_, ?_⟩
      · exact (pySorted_perm (fun a b => strLeB a.1 b.1)
          (res.map (·.2))).mem_iff.mpr (List.mem_map.mpr ⟨q, hqm, rfl⟩)
      · rw [(hent' q hqm).2, hqk, hk]

/-- Witness for C4: the sampler applied to the spec's concrete input. -/
theorem bucket_sampler_witness :
    sample_weekly_snapshots
      [(str "20241101120000", str "u1"), (str "20241103090000", str "u2"),
       (str "20241110000000", str "u3")] =
      some [(str "20241101120000", str "u1"), (str "20241110000000", str "u3")] :=
  (bucket_sampler
    [(str "20241101120000", str "u1"), (str "20241103090000", str "u2"),
     (str "20241110000000", str "u3")] (by decide)).2

end StrikeData
